import Mathlib

/-!
Verification of the dashboard-fusion panel-merge core (src/fusion.go).

The Go code manipulates panels of type map[string]json.RawMessage.  We embed
a raw JSON message as an inductive AST and a panel as an association list of
fields.  Go map insertion order never leaks into the observable behaviour of
the panel maps (panels are only read through keyed lookups), so we fix the
canonical rendering of an insert as delete-then-append; lookups agree with the
Go map at every key.  The one nondeterministic map iteration that does leak
into output (the range over mergedGroups in MergePanelsByGroup) is made an
explicit order parameter.
-/

namespace DashboardFusion

/-- A decoded JSON value standing for a json.RawMessage.  The Go code compares
raw messages with bytes.Equal; all raw messages handled by the claims are
decoded values, which we compare structurally. -/
inductive Json where
  | str : String → Json
  | num : Int → Json
  | bool : Bool → Json
  | null : Json
  | arr : List Json → Json
  | obj : List (String × Json) → Json

mutual

def Json.decEq : (a b : Json) → Decidable (a = b)
  | .str a, .str b =>
    match String.decEq a b with
    | isTrue h => isTrue (by rw [h])
    | isFalse h => isFalse (fun he => by cases he; exact h rfl)
  | .num a, .num b =>
    match Int.decEq a b with
    | isTrue h => isTrue (by rw [h])
    | isFalse h => isFalse (fun he => by cases he; exact h rfl)
  | .bool a, .bool b =>
    match Bool.decEq a b with
    | isTrue h => isTrue (by rw [h])
    | isFalse h => isFalse (fun he => by cases he; exact h rfl)
  | .null, .null => isTrue rfl
  | .arr a, .arr b =>
    match Json.decEqList a b with
    | isTrue h => isTrue (by rw [h])
    | isFalse h => isFalse (fun he => by cases he; exact h rfl)
  | .obj a, .obj b =>
    match Json.decEqObj a b with
    | isTrue h => isTrue (by rw [h])
    | isFalse h => isFalse (fun he => by cases he; exact h rfl)
  | .str _, .num _ => isFalse nofun
  | .str _, .bool _ => isFalse nofun
  | .str _, .null => isFalse nofun
  | .str _, .arr _ => isFalse nofun
  | .str _, .obj _ => isFalse nofun
  | .num _, .str _ => isFalse nofun
  | .num _, .bool _ => isFalse nofun
  | .num _, .null => isFalse nofun
  | .num _, .arr _ => isFalse nofun
  | .num _, .obj _ => isFalse nofun
  | .bool _, .str _ => isFalse nofun
  | .bool _, .num _ => isFalse nofun
  | .bool _, .null => isFalse nofun
  | .bool _, .arr _ => isFalse nofun
  | .bool _, .obj _ => isFalse nofun
  | .null, .str _ => isFalse nofun
  | .null, .num _ => isFalse nofun
  | .null, .bool _ => isFalse nofun
  | .null, .arr _ => isFalse nofun
  | .null, .obj _ => isFalse nofun
  | .arr _, .str _ => isFalse nofun
  | .arr _, .num _ => isFalse nofun
  | .arr _, .bool _ => isFalse nofun
  | .arr _, .null => isFalse nofun
  | .arr _, .obj _ => isFalse nofun
  | .obj _, .str _ => isFalse nofun
  | .obj _, .num _ => isFalse nofun
  | .obj _, .bool _ => isFalse nofun
  | .obj _, .null => isFalse nofun
  | .obj _, .arr _ => isFalse nofun

def Json.decEqList : (a b : List Json) → Decidable (a = b)
  | [], [] => isTrue rfl
  | [], _ :: _ => isFalse nofun
  | _ :: _, [] => isFalse nofun
  | x :: xs, y :: ys =>
    match Json.decEq x y, Json.decEqList xs ys with
    | isTrue h1, isTrue h2 => isTrue (by rw [h1, h2])
    | isFalse h1, _ => isFalse (fun he => by injection he with hh _; exact h1 hh)
    | _, isFalse h2 => isFalse (fun he => by injection he with _ ht; exact h2 ht)

def Json.decEqObj : (a b : List (String × Json)) → Decidable (a = b)
  | [], [] => isTrue rfl
  | [], _ :: _ => isFalse nofun
  | _ :: _, [] => isFalse nofun
  | (k, x) :: xs, (l, y) :: ys =>
    match String.decEq k l, Json.decEq x y, Json.decEqObj xs ys with
    | isTrue hk, isTrue h1, isTrue h2 => isTrue (by rw [hk, h1, h2])
    | isFalse hk, _, _ => isFalse (fun he => by
        injection he with hh ht
        injection hh with hk2 _
        exact hk hk2)
    | _, isFalse h1, _ => isFalse (fun he => by
        injection he with hh ht
        injection hh with _ hv
        exact h1 hv)
    | _, _, isFalse h2 => isFalse (fun he => by injection he with _ ht; exact h2 ht)

end

instance : DecidableEq Json := Json.decEq

/-- Association-list rendering of a Go map with string keys.  Read through
keyed lookups only, so that list order is unobservable, as for a Go map. -/
abbrev PMap (α : Type) := List (String × α)

/-- Lookup, the Go one-valued map read m[k] together with the ok flag. -/
def mGet {α : Type} : PMap α → String → Option α
  | [], _ => none
  | kv :: rest, k => if kv.1 = k then some kv.2 else mGet rest k

/-- Key removal, helper for the canonical rendering of map writes. -/
def mDel {α : Type} : PMap α → String → PMap α
  | [], _ => []
  | kv :: rest, k => if kv.1 = k then mDel rest k else kv :: mDel rest k

/-- Go map write m[k] = v.  Where the pair sits in the list is unobservable
through mGet; we canonically delete any old binding and append the new one. -/
def mSet {α : Type} (m : PMap α) (k : String) (v : α) : PMap α :=
  mDel m k ++ [(k, v)]

/-- Keys of the map, in list order. -/
def mKeys {α : Type} (m : PMap α) : List String := m.map Prod.fst

/-- A panel: an open JSON object, map[string]json.RawMessage in the source. -/
abbrev Panel := PMap Json

/-- Grid rectangle, struct GridPos in the source. -/
structure GridPos where
  h : Int := 0
  w : Int := 0
  x : Int := 0
  y : Int := 0
deriving DecidableEq

/-- Unmarshalling a raw message into a Go string variable: a JSON string
yields its value, JSON null succeeds leaving the zero value "", anything
else is an error (none). -/
def decodeGoString : Json → Option String
  | .str s => some s
  | .null => some ""
  | _ => none

/-- Unmarshalling one integer field of a gridPos object: a missing field or a
null field leaves the zero value, a number is taken, anything else errors. -/
def decodeIntField (fs : List (String × Json)) (k : String) : Option Int :=
  match mGet fs k with
  | none => some 0
  | some (.num n) => some n
  | some .null => some 0
  | some _ => none

/-- Unmarshalling a raw message into struct GridPos: an object is read field
by field, null succeeds leaving the zero struct, anything else errors. -/
def decodeGridPos : Json → Option GridPos
  | .obj fs => do
      let h ← decodeIntField fs "h"
      let w ← decodeIntField fs "w"
      let x ← decodeIntField fs "x"
      let y ← decodeIntField fs "y"
      pure (GridPos.mk h w x y)
  | .null => some (GridPos.mk 0 0 0 0)
  | _ => none

/-- json.Marshal of a GridPos value (fields in struct order h, w, x, y). -/
def encodeGridPos (g : GridPos) : Json :=
  .obj [("h", .num g.h), ("w", .num g.w), ("x", .num g.x), ("y", .num g.y)]

/-- Panel.Equals from the source: bytes.Equal on the raw title and the raw
type, where an absent field reads as nil and nil equals nil. -/
def Panel.equals (p q : Panel) : Bool :=
  decide (mGet p "title" = mGet q "title") && decide (mGet p "type" = mGet q "type")

/-- Panel.GridPos() from the source: an absent field gives the zero struct.
The Go method panics when a present field fails to decode; claims therefore
carry gridPos well-formedness hypotheses (Panel.gpWF) under which this total
function agrees with the source. -/
def Panel.gridPos (p : Panel) : GridPos :=
  match mGet p "gridPos" with
  | none => GridPos.mk 0 0 0 0
  | some j => (decodeGridPos j).getD (GridPos.mk 0 0 0 0)

/-- Well-formedness of the gridPos field: if present it decodes, so the Go
code does not panic when reading it. -/
def Panel.gpWF (p : Panel) : Bool :=
  match mGet p "gridPos" with
  | none => true
  | some j => (decodeGridPos j).isSome

/-- Writing a possibly-nil raw message under a key.  Go stores a nil
RawMessage under the key; a stored nil behaves exactly like an absent field
for every lookup the merge performs (bytes.Equal treats nil as nil, and the
panicking decode of a present nil is excluded by the same well-formedness
hypotheses as above), so we render the nil write as a delete. -/
def setRaw (p : Panel) (k : String) : Option Json → Panel
  | some v => mSet p k v
  | none => mDel p k

/-- Line 96 of the source: p2["gridPos"], p2["id"] = res[i].GridPosRaw(), res[i].IDRaw(). -/
def setGridId (p2 r : Panel) : Panel :=
  setRaw (setRaw p2 "gridPos" (mGet r "gridPos")) "id" (mGet r "id")

/-- The panel minus its gridPos field. -/
def stripGrid (p : Panel) : Panel := mDel p "gridPos"

/-- The panel minus its gridPos and id fields: the content that a match
overwrite transports from the incoming panel. -/
def stripLayout (p : Panel) : Panel := mDel (mDel p "gridPos") "id"

/-- Running maximum of gridPos.y + gridPos.h over the base panels, computed
in the first loop of MergePanels (lines 80 to 85 of the source). -/
def maxYOf (ps : List Panel) : Int :=
  ps.foldl (fun maxY p =>
    let gp := Panel.gridPos p
    if gp.y + gp.h > maxY then gp.y + gp.h else maxY) 0

/-- One slot check of the inner scan of MergePanels (lines 92 to 100): on a
match the shared map p2 takes the slot's gridPos and id and the flag is set. -/
def scanStep (acc : Panel × Bool) (r : Panel) : Panel × Bool :=
  if Panel.equals r acc.1 then (setGridId acc.1 r, true) else acc

def scanGo (res : List Panel) (acc : Panel × Bool) : Panel × Bool :=
  res.foldl scanStep acc

/-- The inner scan of MergePanels (lines 92 to 100).  Go mutates the shared
map p2 at every matching slot and stores the same reference into the slot, so
the value the scan produces, rendered purely, is p2 carrying the gridPos and
id of the slots matched so far (the last write wins); the flag records
whether any slot matched.  Matching reads only title and type, which the
writes never touch, so scanning the original list is exact. -/
def scanMatches (res : List Panel) (p2 : Panel) : Panel × Bool :=
  scanGo res (p2, false)

/-- One iteration of the outer loop of MergePanels (lines 87 to 118).  In the
matched case every matched slot holds the same mutated map in Go, hence the
same final value here; in the unmatched case p2 gets the default rectangle
and is appended, and the running maxY grows by the default height 2. -/
def mergeOne (res : List Panel) (maxY : Int) (p2 : Panel) : List Panel × Int :=
  let s := scanMatches res p2
  if s.2 then
    (res.map (fun r => if Panel.equals r p2 then s.1 else r), maxY)
  else
    (res ++ [mSet p2 "gridPos" (encodeGridPos (GridPos.mk 2 6 0 (maxY + 1)))], maxY + 2)

/-- The outer loop of MergePanels over the incoming panels. -/
def mergeGo (acc : List Panel × Int) (ps2 : List Panel) : List Panel × Int :=
  ps2.foldl (fun acc p2 => mergeOne acc.1 acc.2 p2) acc

/-- MergePanels from the source. -/
def MergePanels (ps1 ps2 : List Panel) : List Panel :=
  (mergeGo (ps1, maxYOf ps1) ps2).1

/-- retrieveEmbeddedPanels from the source: decode the nested panels field,
returning the empty list when the field is absent or fails to decode.
Unmarshalling []Panel accepts null (nil slice) and an array of objects. -/
def decodePanel : Json → Option Panel
  | .obj fs => some (fs.foldl (fun p kv => mSet p kv.1 kv.2) [])
  | .null => some []
  | _ => none

def decodePanels : Json → Option (List Panel)
  | .arr xs => xs.foldr (fun x acc => do
      let p ← decodePanel x
      let rest ← acc
      pure (p :: rest)) (some [])
  | .null => some []
  | _ => none

def retrieveEmbeddedPanels (p : Panel) : List Panel :=
  match mGet p "panels" with
  | some j => (decodePanels j).getD []
  | none => []

/-- The in-place rewrite of a row marker in groupByRow (lines 272 to 273):
the nested panels field becomes the empty array and collapsed becomes false. -/
def clearRow (p : Panel) : Panel :=
  mSet (mSet p "panels" (Json.arr [])) "collapsed" (Json.bool false)

/-- Whether the type field reads as the string row. -/
def isRowTyped (p : Panel) : Bool :=
  match mGet p "type" with
  | some tj =>
    match decodeGoString tj with
    | some ty => ty = "row"
    | none => false
  | none => false

/-- groupByRow mutates each row marker of its input in place; the walk over
ps1 in MergePanelsByGroup therefore sees the cleared markers.  This is the
panel as that walk sees it. -/
def clearIfRow (p : Panel) : Panel :=
  if isRowTyped p then clearRow p else p

/-- State of the groupByRow loop. -/
structure GState where
  groups : PMap (List Panel)
  rows : PMap Panel
  groupName : String
deriving DecidableEq

/-- Go map append groups[name] = append(groups[name], xs...), which creates
the key even when xs is empty. -/
def mAppendGroup (m : PMap (List Panel)) (k : String) (xs : List Panel) : PMap (List Panel) :=
  mSet m k ((mGet m k).getD [] ++ xs)

/-- One iteration of groupByRow (lines 257 to 279).  A panel whose type is
absent or does not read as a string is dropped.  For a row marker the group
name is updated only when the title is present and reads as a Go string
(JSON null reads as the empty string); the embedded panels, taken before the
marker is cleared, join the current group, and the cleared marker is recorded
under the current group name. -/
def groupByRowStep (st : GState) (p : Panel) : GState :=
  match mGet p "type" with
  | none => st
  | some tj =>
    match decodeGoString tj with
    | none => st
    | some ty =>
      if ty = "row" then
        let gn :=
          match mGet p "title" with
          | some tr =>
            match decodeGoString tr with
            | some t => t
            | none => st.groupName
          | none => st.groupName
        GState.mk
          (mAppendGroup st.groups gn (retrieveEmbeddedPanels p))
          (mSet st.rows gn (clearRow p))
          gn
      else
        GState.mk (mAppendGroup st.groups st.groupName [p]) st.rows st.groupName

/-- groupByRow from the source. -/
def groupByRow (ps : List Panel) : PMap (List Panel) × PMap Panel :=
  let st := ps.foldl groupByRowStep (GState.mk [] [] "none")
  (st.groups, st.rows)

/-- The two loops of MergePanelsByGroup building mergedGroups (lines 133 to
145).  Iteration order over the Go maps cannot be observed here: every write
is keyed and the second loop never overwrites an existing key. -/
def buildMergedGroups (g1 g2 : PMap (List Panel)) : PMap (List Panel) :=
  let m := g1.foldl
    (fun acc kv =>
      match mGet g2 kv.1 with
      | some h2 => mSet acc kv.1 (MergePanels kv.2 h2)
      | none => mSet acc kv.1 kv.2) []
  g2.foldl
    (fun acc kv =>
      match mGet acc kv.1 with
      | some _ => acc
      | none => mSet acc kv.1 kv.2) m

/-- The row titles present in rowsPs2 but not rowsPs1 (lines 154 to 158).
Go iterates rowsPs2 in unspecified order, but onlyPs2 is only consumed
through slices.Contains, so the order chosen here is unobservable. -/
def onlyPs2Of (rows1 rows2 : PMap Panel) : List String :=
  (mKeys rows2).filter (fun t => (mGet rows1 t).isNone)

/-- The loop appending the groups that exist only in ps2 (lines 161 to 168).
Go ranges over the mergedGroups map in unspecified, run-dependent order; ord
is that iteration order, one key per entry.  Returns the built block and the
titles marked seen. -/
def tmp1Step (rows2 : PMap Panel) (merged : PMap (List Panel)) (only2 : List String)
    (acc : List Panel × List String) (title : String) : List Panel × List String :=
  if only2.contains title then
    (acc.1 ++ (mGet rows2 title).getD [] :: (mGet merged title).getD [], title :: acc.2)
  else acc

def tmp1Of (rows2 : PMap Panel) (merged : PMap (List Panel)) (only2 : List String)
    (ord : List String) : List Panel × List String :=
  ord.foldl (tmp1Step rows2 merged only2) ([], [])

/-- Title resolution in the walk over ps1 (lines 179 to 184): an absent title
gives none, a present title is unmarshalled with the error ignored, so an
unreadable value leaves the zero string. -/
def rowWalkTitle (p : Panel) : String :=
  match mGet p "title" with
  | some tr => (decodeGoString tr).getD ""
  | none => "none"

/-- Header choice in the walk over ps1 (lines 186 to 193): prefer the ps1
row map, then the ps2 row map, then the walked panel itself. -/
def walkHeader (rows1 rows2 : PMap Panel) (p : Panel) : Panel :=
  match mGet rows1 (rowWalkTitle p) with
  | some h => h
  | none =>
    match mGet rows2 (rowWalkTitle p) with
    | some h => h
    | none => p

/-- One iteration of the walk over ps1 (lines 171 to 203).  The header is
appended at every row marker; the merged content is appended only when the
title has not been seen, and the title is then marked seen either way. -/
def walkStep (rows1 rows2 : PMap Panel) (merged : PMap (List Panel))
    (acc : List Panel × List String) (p : Panel) : List Panel × List String :=
  match mGet p "type" with
  | none => acc
  | some tj =>
    match decodeGoString tj with
    | none => acc
    | some ty =>
      if ty = "row" then
        let title := rowWalkTitle p
        let out := acc.1 ++ [walkHeader rows1 rows2 p]
        if acc.2.contains title then (out, acc.2)
        else
          match mGet merged title with
          | some panels => (out ++ panels, title :: acc.2)
          | none => (out, title :: acc.2)
      else acc

/-- State of the repacking loop (lines 221 to 223). -/
structure RState where
  y : Int
  rowW : Int
  rowMaxH : Int
deriving DecidableEq

/-- One iteration of the repacking loop (lines 225 to 248), grid width 24:
start a new row when the width would overflow, place the panel at the row
cursor, and update the cursor and the row height. -/
def repackStep (st : RState) (p : Panel) : RState × Panel :=
  let pos := Panel.gridPos p
  let st0 := if st.rowW + pos.w > 24 then RState.mk (st.y + st.rowMaxH) 0 0 else st
  let pos2 := GridPos.mk pos.h pos.w st0.rowW st0.y
  (RState.mk st0.y (st0.rowW + pos.w) (if pos.h > st0.rowMaxH then pos.h else st0.rowMaxH),
   mSet p "gridPos" (encodeGridPos pos2))

def repackGo : RState → List Panel → List Panel
  | _, [] => []
  | st, p :: ps =>
    let sp := repackStep st p
    sp.2 :: repackGo sp.1 ps

/-- The full repacking pass over the assembled sequence. -/
def repack (ps : List Panel) : List Panel := repackGo (RState.mk 0 0 0) ps

/-- The states reached after each panel of the repacking loop, for stating
row-packing invariants. -/
def repackStates : RState → List Panel → List RState
  | _, [] => []
  | st, p :: ps => (repackStep st p).1 :: repackStates (repackStep st p).1 ps

/-- The walk over ps1 building the existing-groups block. -/
def walkGo (rows1 rows2 : PMap Panel) (merged : PMap (List Panel))
    (acc : List Panel × List String) (ps : List Panel) : List Panel × List String :=
  ps.foldl (walkStep rows1 rows2 merged) acc

/-- Everything MergePanelsByGroup does before the repacking pass, with ord
the Go iteration order over mergedGroups. -/
def assembleByGroup (ps1 ps2 : List Panel) (top : Bool) (ord : List String) : List Panel :=
  let gr1 := groupByRow ps1
  let gr2 := groupByRow ps2
  let merged := buildMergedGroups gr1.1 gr2.1
  let only2 := onlyPs2Of gr1.2 gr2.2
  let t1 := tmp1Of gr2.2 merged only2 ord
  let t2 := walkGo gr1.2 gr2.2 merged ([], t1.2) (ps1.map clearIfRow)
  let noneG := (mGet merged "none").getD []
  if top then noneG ++ t1.1 ++ t2.1 else noneG ++ t2.1 ++ t1.1

/-- MergePanelsByGroup from the source, with the map iteration order over
mergedGroups made explicit as ord. -/
def MergePanelsByGroup (ps1 ps2 : List Panel) (top : Bool) (ord : List String) : List Panel :=
  repack (assembleByGroup ps1 ps2 top ord)

/-- The mergedGroups map that MergePanelsByGroup builds from its inputs. -/
def mergedGroupsOf (ps1 ps2 : List Panel) : PMap (List Panel) :=
  buildMergedGroups (groupByRow ps1).1 (groupByRow ps2).1

/-- The key set of mergedGroups; an admissible Go iteration order is any
permutation of it. -/
def mergedKeysOf (ps1 ps2 : List Panel) : List String :=
  mKeys (mergedGroupsOf ps1 ps2)

/-- Well-formedness of the gridPos of a panel and of its embedded panels:
under this, no decode the Go pipeline performs on the panel panics. -/
def panelDeepWF (p : Panel) : Bool :=
  Panel.gpWF p && (retrieveEmbeddedPanels p).all Panel.gpWF

/-- The title resolution groupByRow uses to update the group name: the group
name changes exactly when the title field is present and unmarshals. -/
def resolvedTitle (p : Panel) : Option String :=
  match mGet p "title" with
  | some tr => decodeGoString tr
  | none => none

/-- The singleton binding a setRaw write appends, empty for a nil write. -/
def optPair (k : String) : Option Json → Panel
  | some v => [(k, v)]
  | none => []

/-- Loop invariant for the amended match-overwrite claim, before the incoming
panel q is processed: the result holds exactly one panel of q's identity
class, at a fixed index, still carrying the base panel's raw gridPos and id. -/
def slotInv (q : Panel) (n : Nat) (G I : Option Json) (res : List Panel) : Prop :=
  ∃ a v b, res = a ++ v :: b ∧ a.length = n ∧ Panel.equals v q = true ∧
    mGet v "gridPos" = G ∧ mGet v "id" = I ∧
    (∀ r ∈ a, Panel.equals r q = false) ∧ (∀ r ∈ b, Panel.equals r q = false)

/-- Loop invariant after q was processed: the slot holds the final merged
value and no other slot is in q's identity class. -/
def slotDone (q vf : Panel) (n : Nat) (res : List Panel) : Prop :=
  ∃ a b, res = a ++ vf :: b ∧ a.length = n ∧
    (∀ r ∈ a, Panel.equals r q = false) ∧ (∀ r ∈ b, Panel.equals r q = false)

/-- Concrete panels for witnesses and counterexamples. -/
def pT : Panel := [("title", Json.str "T"), ("type", Json.str "G")]

def pId1 : Panel :=
  [("id", Json.num 1), ("title", Json.str "T"), ("type", Json.str "G"),
   ("gridPos", encodeGridPos (GridPos.mk 1 1 0 0))]

def pId2 : Panel :=
  [("id", Json.num 2), ("title", Json.str "T"), ("type", Json.str "G"),
   ("gridPos", encodeGridPos (GridPos.mk 1 1 1 0))]

def qV2 : Panel := [("title", Json.str "T"), ("type", Json.str "G"), ("extra", Json.str "v2")]

def qB : Panel := [("title", Json.str "B"), ("type", Json.str "G")]

def qZ : Panel := [("title", Json.str "Z"), ("type", Json.str "G")]

def pU : Panel := [("id", Json.num 9), ("title", Json.str "U"), ("type", Json.str "G")]

def rowA : Panel := [("type", Json.str "row"), ("title", Json.str "A")]

def rowB : Panel := [("type", Json.str "row"), ("title", Json.str "B")]

def rowX : Panel := [("type", Json.str "row")]

def rowA1 : Panel := [("type", Json.str "row"), ("title", Json.str "A"), ("id", Json.num 1)]

def rowA2 : Panel := [("type", Json.str "row"), ("title", Json.str "A"), ("id", Json.num 2)]

def rowNone : Panel := [("type", Json.str "row"), ("title", Json.str "none")]

def pNoType : Panel := [("title", Json.str "L")]

def w20 : Panel := [("gridPos", encodeGridPos (GridPos.mk 3 20 0 0))]

def w10 : Panel := [("gridPos", encodeGridPos (GridPos.mk 5 10 0 0))]

/-! Lookup lemmas for the association-list rendering of Go maps. -/

theorem mGet_append {α : Type} (a b : PMap α) (k : String) :
    mGet (a ++ b) k = match mGet a k with | some v => some v | none => mGet b k := by
  induction a with
  | nil => simp [mGet]
  | cons kv rest ih =>
    by_cases h : kv.1 = k <;> simp [mGet, h, ih]

theorem mGet_mDel_self {α : Type} (m : PMap α) (k : String) :
    mGet (mDel m k) k = none := by
  induction m with
  | nil => simp [mDel, mGet]
  | cons kv rest ih =>
    by_cases h : kv.1 = k <;> simp [mDel, mGet, h, ih]

theorem mGet_mDel_ne {α : Type} (m : PMap α) {k k' : String} (h : k' ≠ k) :
    mGet (mDel m k) k' = mGet m k' := by
  induction m with
  | nil => simp [mDel]
  | cons kv rest ih =>
    by_cases hk : kv.1 = k
    · have hne : ¬ kv.1 = k' := fun he => h (he.symm.trans hk)
      rw [mDel, if_pos hk, mGet, if_neg hne, ih]
    · rw [mDel, if_neg hk, mGet, mGet]
      by_cases hk' : kv.1 = k'
      · rw [if_pos hk', if_pos hk']
      · rw [if_neg hk', if_neg hk', ih]

theorem mGet_mSet_self {α : Type} (m : PMap α) (k : String) (v : α) :
    mGet (mSet m k v) k = some v := by
  simp [mSet, mGet_append, mGet_mDel_self, mGet]

theorem mGet_mSet_ne {α : Type} (m : PMap α) {k k' : String} (v : α) (h : k' ≠ k) :
    mGet (mSet m k v) k' = mGet m k' := by
  have hne : ¬ k = k' := fun he => h he.symm
  rw [mSet, mGet_append, mGet_mDel_ne m h]
  cases hm : mGet m k'
  · simp [mGet, hne]
  · simp

theorem mDel_append {α : Type} (a b : PMap α) (k : String) :
    mDel (a ++ b) k = mDel a k ++ mDel b k := by
  induction a with
  | nil => simp [mDel]
  | cons kv rest ih =>
    by_cases h : kv.1 = k <;> simp [mDel, h, ih]

theorem mDel_mDel_self {α : Type} (m : PMap α) (k : String) :
    mDel (mDel m k) k = mDel m k := by
  induction m with
  | nil => simp [mDel]
  | cons kv rest ih =>
    by_cases h : kv.1 = k <;> simp [mDel, h, ih]

theorem mDel_mDel_comm {α : Type} (m : PMap α) (k k' : String) :
    mDel (mDel m k) k' = mDel (mDel m k') k := by
  induction m with
  | nil => simp [mDel]
  | cons kv rest ih =>
    by_cases h : kv.1 = k <;> by_cases h' : kv.1 = k'
    · have hkk : k = k' := h.symm.trans h'
      subst hkk
      rfl
    · simp only [mDel, if_pos h, if_neg h']
      exact ih
    · simp only [mDel, if_neg h, if_pos h']
      exact ih
    · simp only [mDel, if_neg h, if_neg h', ih]

theorem mem_mKeys_iff {α : Type} (m : PMap α) (k : String) :
    k ∈ mKeys m ↔ mGet m k ≠ none := by
  induction m with
  | nil => simp [mKeys, mGet]
  | cons kv rest ih =>
    simp only [mKeys, List.map_cons, List.mem_cons, mGet]
    by_cases h : kv.1 = k
    · simp [h]
    · rw [if_neg h]
      constructor
      · intro hmem
        rcases hmem with he | hmem
        · exact absurd he.symm h
        · exact ih.1 (by simpa [mKeys] using hmem)
      · intro hne
        exact Or.inr (by simpa [mKeys] using ih.2 hne)

/-! Panel field lemmas. -/

theorem setRaw_eq (p : Panel) (k : String) (v : Option Json) :
    setRaw p k v = mDel p k ++ optPair k v := by
  cases v <;> simp [setRaw, optPair, mSet]

theorem mDel_optPair_ne (k k' : String) (v : Option Json) (h : k ≠ k') :
    mDel (optPair k v) k' = optPair k v := by
  cases v <;> simp [optPair, mDel, h]

theorem mGet_optPair_self (k : String) (v : Option Json) :
    mGet (optPair k v) k = v := by
  cases v <;> simp [optPair, mGet]

theorem mGet_optPair_ne (k k' : String) (v : Option Json) (h : k' ≠ k) :
    mGet (optPair k v) k' = none := by
  have hne : ¬ k = k' := fun he => h he.symm
  cases v <;> simp [optPair, mGet, hne]

theorem setGridId_decomp (p r : Panel) :
    setGridId p r =
      stripLayout p ++ optPair "gridPos" (mGet r "gridPos") ++ optPair "id" (mGet r "id") := by
  simp only [setGridId, setRaw_eq, stripLayout, mDel_append]
  rw [mDel_optPair_ne "gridPos" "id" _ (by decide)]

theorem stripLayout_append (a b : Panel) :
    stripLayout (a ++ b) = stripLayout a ++ stripLayout b := by
  simp [stripLayout, mDel_append]

theorem stripLayout_optPair_gridPos (v : Option Json) :
    stripLayout (optPair "gridPos" v) = [] := by
  cases v <;> simp [optPair, stripLayout, mDel]

theorem stripLayout_optPair_id (v : Option Json) :
    stripLayout (optPair "id" v) = [] := by
  cases v <;> simp [optPair, stripLayout, mDel]

theorem stripLayout_stripLayout (p : Panel) :
    stripLayout (stripLayout p) = stripLayout p := by
  simp only [stripLayout]
  rw [mDel_mDel_comm (mDel (mDel p "gridPos") "id") "gridPos" "id",
    mDel_mDel_self, mDel_mDel_comm (mDel p "gridPos") "id" "gridPos", mDel_mDel_self]

theorem stripLayout_setGridId (p r : Panel) :
    stripLayout (setGridId p r) = stripLayout p := by
  rw [setGridId_decomp, stripLayout_append, stripLayout_append,
    stripLayout_optPair_gridPos, stripLayout_optPair_id, stripLayout_stripLayout]
  simp

theorem setGridId_congr_left {p p' : Panel} (r : Panel)
    (h : stripLayout p = stripLayout p') : setGridId p r = setGridId p' r := by
  rw [setGridId_decomp, setGridId_decomp, h]

theorem setGridId_congr_right (p : Panel) {r r' : Panel}
    (hg : mGet r "gridPos" = mGet r' "gridPos") (hi : mGet r "id" = mGet r' "id") :
    setGridId p r = setGridId p r' := by
  rw [setGridId_decomp, setGridId_decomp, hg, hi]

theorem setGridId_setGridId (p a b : Panel) :
    setGridId (setGridId p a) b = setGridId p b := by
  rw [setGridId_decomp (setGridId p a) b, stripLayout_setGridId, setGridId_decomp]

theorem mGet_stripLayout_ne (p : Panel) {k : String}
    (h1 : k ≠ "gridPos") (h2 : k ≠ "id") : mGet (stripLayout p) k = mGet p k := by
  simp [stripLayout, mGet_mDel_ne _ h2, mGet_mDel_ne _ h1]

theorem mGet_setGridId_ne (p r : Panel) {k : String}
    (h1 : k ≠ "gridPos") (h2 : k ≠ "id") : mGet (setGridId p r) k = mGet p k := by
  rw [setGridId_decomp, mGet_append, mGet_append, mGet_stripLayout_ne p h1 h2,
    mGet_optPair_ne _ _ _ h1, mGet_optPair_ne _ _ _ h2]
  cases mGet p k <;> simp

theorem mGet_setGridId_gridPos (p r : Panel) :
    mGet (setGridId p r) "gridPos" = mGet r "gridPos" := by
  rw [setGridId_decomp, mGet_append, mGet_append,
    mGet_optPair_ne "id" "gridPos" _ (by decide), mGet_optPair_self]
  have : mGet (stripLayout p) "gridPos" = none := by
    simp [stripLayout, mGet_mDel_ne _ (show "gridPos" ≠ "id" by decide), mGet_mDel_self]
  rw [this]
  cases mGet r "gridPos" <;> simp

theorem mGet_setGridId_id (p r : Panel) :
    mGet (setGridId p r) "id" = mGet r "id" := by
  rw [setGridId_decomp, mGet_append, mGet_append, mGet_optPair_self,
    mGet_optPair_ne "gridPos" "id" _ (by decide)]
  have : mGet (stripLayout p) "id" = none := by
    simp [stripLayout, mGet_mDel_self]
  rw [this]

/-! Matching lemmas. -/

theorem equals_iff (p q : Panel) :
    Panel.equals p q = true ↔
      mGet p "title" = mGet q "title" ∧ mGet p "type" = mGet q "type" := by
  simp [Panel.equals]

theorem equals_refl (p : Panel) : Panel.equals p p = true := by
  simp [equals_iff]

theorem equals_symm (p q : Panel) : Panel.equals p q = Panel.equals q p := by
  simp only [Panel.equals]
  rw [decide_eq_decide.2 (eq_comm (a := mGet p "title")),
    decide_eq_decide.2 (eq_comm (a := mGet p "type"))]

theorem equals_congr_left {p p' : Panel} (q : Panel)
    (h1 : mGet p "title" = mGet p' "title") (h2 : mGet p "type" = mGet p' "type") :
    Panel.equals p q = Panel.equals p' q := by
  simp [Panel.equals, h1, h2]

theorem equals_congr_right (p : Panel) {q q' : Panel}
    (h1 : mGet q "title" = mGet q' "title") (h2 : mGet q "type" = mGet q' "type") :
    Panel.equals p q = Panel.equals p q' := by
  simp [Panel.equals, h1, h2]

theorem equals_setGridId_left (q p r : Panel) :
    Panel.equals (setGridId p r) q = Panel.equals p q :=
  equals_congr_left q (mGet_setGridId_ne p r (by decide) (by decide))
    (mGet_setGridId_ne p r (by decide) (by decide))

theorem equals_setGridId_right (p q r : Panel) :
    Panel.equals p (setGridId q r) = Panel.equals p q :=
  equals_congr_right p (mGet_setGridId_ne q r (by decide) (by decide))
    (mGet_setGridId_ne q r (by decide) (by decide))

theorem equals_trans_left {a b : Panel} (c : Panel) (h : Panel.equals a b = true) :
    Panel.equals a c = Panel.equals b c := by
  rcases (equals_iff a b).1 h with ⟨h1, h2⟩
  exact equals_congr_left c h1 h2

theorem equals_mSet_gridPos_left (q p : Panel) (v : Json) :
    Panel.equals (mSet p "gridPos" v) q = Panel.equals p q :=
  equals_congr_left q (mGet_mSet_ne p v (by decide)) (mGet_mSet_ne p v (by decide))

theorem stripLayout_mSet_gridPos (p : Panel) (v : Json) :
    stripLayout (mSet p "gridPos" v) = stripLayout p := by
  have h1 : mDel ([("gridPos", v)] : Panel) "gridPos" = [] := by simp [mDel]
  simp [stripLayout, mSet, mDel_append, mDel_mDel_self, h1]

theorem stripGrid_mSet_gridPos (p : Panel) (v : Json) :
    stripGrid (mSet p "gridPos" v) = stripGrid p := by
  simp [stripGrid, mSet, mDel_append, mDel_mDel_self, mDel]

theorem stripLayout_eq_mDel_stripGrid (p : Panel) :
    stripLayout p = mDel (stripGrid p) "id" := rfl

/-! Lemmas about the inner scan of MergePanels. -/

theorem scanGo_cons (x : Panel) (res : List Panel) (acc : Panel × Bool) :
    scanGo (x :: res) acc = scanGo res (scanStep acc x) := rfl

theorem scanGo_append (a b : List Panel) (acc : Panel × Bool) :
    scanGo (a ++ b) acc = scanGo b (scanGo a acc) := by
  simp [scanGo, List.foldl_append]

theorem equals_scanStep (r : Panel) (acc : Panel × Bool) (x : Panel) :
    Panel.equals r (scanStep acc x).1 = Panel.equals r acc.1 := by
  unfold scanStep
  cases hb : Panel.equals x acc.1 <;> simp [hb, equals_setGridId_right]

theorem equals_scanGo (r : Panel) (res : List Panel) (acc : Panel × Bool) :
    Panel.equals r (scanGo res acc).1 = Panel.equals r acc.1 := by
  induction res generalizing acc with
  | nil => rfl
  | cons x xs ih => rw [scanGo_cons, ih, equals_scanStep]

theorem stripLayout_scanGo (res : List Panel) (acc : Panel × Bool) :
    stripLayout (scanGo res acc).1 = stripLayout acc.1 := by
  induction res generalizing acc with
  | nil => rfl
  | cons x xs ih =>
    rw [scanGo_cons, ih]
    unfold scanStep
    cases hb : Panel.equals x acc.1 <;> simp [hb, stripLayout_setGridId]

theorem scanGo_snd (res : List Panel) (acc : Panel × Bool) :
    (scanGo res acc).2 = (acc.2 || res.any (fun r => Panel.equals r acc.1)) := by
  induction res generalizing acc with
  | nil => simp [scanGo]
  | cons x xs ih =>
    rw [scanGo_cons, ih]
    unfold scanStep
    cases hb : Panel.equals x acc.1
    · simp [hb]
    · simp [hb, equals_setGridId_right]

theorem scanGo_nomatch (res : List Panel) (acc : Panel × Bool)
    (h : ∀ r ∈ res, Panel.equals r acc.1 = false) : scanGo res acc = acc := by
  induction res with
  | nil => rfl
  | cons x xs ih =>
    have hx : Panel.equals x acc.1 = false := h x (by simp)
    rw [scanGo_cons]
    have hst : scanStep acc x = acc := by simp [scanStep, hx]
    rw [hst]
    exact ih (fun r hr => h r (by simp [hr]))

theorem scanGo_last_match (xs ys : List Panel) (rl p2 : Panel) (b : Bool)
    (hr : Panel.equals rl p2 = true) (hys : ∀ y ∈ ys, Panel.equals y p2 = false) :
    (scanGo (xs ++ rl :: ys) (p2, b)).1 = setGridId p2 rl := by
  rw [scanGo_append, scanGo_cons]
  have h1 : Panel.equals rl (scanGo xs (p2, b)).1 = true := by
    rw [equals_scanGo]; exact hr
  have hst : scanStep (scanGo xs (p2, b)) rl = (setGridId (scanGo xs (p2, b)).1 rl, true) := by
    simp [scanStep, h1]
  rw [hst]
  have hnom : scanGo ys (setGridId (scanGo xs (p2, b)).1 rl, true) =
      (setGridId (scanGo xs (p2, b)).1 rl, true) := by
    apply scanGo_nomatch
    intro y hy
    rw [equals_setGridId_right, equals_scanGo]
    exact hys y hy
  rw [hnom]
  exact setGridId_congr_left rl (stripLayout_scanGo xs (p2, b))

/-! Lemmas about the outer loop of MergePanels. -/

theorem mergeGo_cons (acc : List Panel × Int) (p : Panel) (l : List Panel) :
    mergeGo acc (p :: l) = mergeGo (mergeOne acc.1 acc.2 p) l := rfl

theorem mergeGo_append (acc : List Panel × Int) (a b : List Panel) :
    mergeGo acc (a ++ b) = mergeGo (mergeGo acc a) b := by
  simp [mergeGo, List.foldl_append]

theorem mergeOne_nomatch (res : List Panel) (maxY : Int) (p2 : Panel)
    (h : ∀ r ∈ res, Panel.equals r p2 = false) :
    mergeOne res maxY p2 =
      (res ++ [mSet p2 "gridPos" (encodeGridPos (GridPos.mk 2 6 0 (maxY + 1)))], maxY + 2) := by
  have hs : scanMatches res p2 = (p2, false) := scanGo_nomatch res (p2, false) h
  simp [mergeOne, hs]

theorem mergeOne_match_shape (l1 l2 : List Panel) (rl : Panel) (maxY : Int) (q : Panel)
    (hr : Panel.equals rl q = true) (hl2 : ∀ y ∈ l2, Panel.equals y q = false) :
    mergeOne (l1 ++ rl :: l2) maxY q =
      ((l1 ++ rl :: l2).map (fun r => if Panel.equals r q then setGridId q rl else r), maxY) := by
  have hfst : (scanMatches (l1 ++ rl :: l2) q).1 = setGridId q rl :=
    scanGo_last_match l1 l2 rl q false hr hl2
  have hsnd : (scanMatches (l1 ++ rl :: l2) q).2 = true := by
    rw [scanMatches, scanGo_snd]
    simp only [Bool.false_or, List.any_eq_true]
    exact ⟨rl, by simp, hr⟩
  simp [mergeOne, hsnd, hfst]

theorem mergeOne_cover (res : List Panel) (maxY : Int) (p2 q0 : Panel)
    (h : ∃ r ∈ res, Panel.equals r q0 = true) :
    ∃ r ∈ (mergeOne res maxY p2).1, Panel.equals r q0 = true := by
  obtain ⟨r, hmem, hrq⟩ := h
  unfold mergeOne
  cases hs : (scanMatches res p2).2
  · simp only [hs, Bool.false_eq_true, if_false]
    exact ⟨r, by simp [hmem], hrq⟩
  · simp only [hs, if_true]
    refine ⟨if Panel.equals r p2 then (scanMatches res p2).1 else r, List.mem_map.2 ⟨r, hmem, rfl⟩, ?_⟩
    cases hrp : Panel.equals r p2
    · simpa [hrp] using hrq
    · simp only [hrp, if_true]
      have h1 : Panel.equals (scanMatches res p2).1 q0 = Panel.equals p2 q0 := by
        rw [equals_symm, scanMatches, equals_scanGo, equals_symm]
      rw [h1, ← equals_trans_left q0 hrp]
      exact hrq

theorem map_id_of {α : Type} (l : List α) (f : α → α) (h : ∀ r ∈ l, f r = r) :
    l.map f = l := by
  induction l with
  | nil => rfl
  | cons x xs ih => simp [h x (by simp), ih (fun r hr => h r (by simp [hr]))]

theorem equals_congr_of_right {x q : Panel} (r : Panel) (h : Panel.equals x q = true) :
    Panel.equals r x = Panel.equals r q := by
  rcases (equals_iff x q).1 h with ⟨h1, h2⟩
  exact equals_congr_right r h1 h2

theorem equals_both {v x q : Panel} (hv : Panel.equals v q = true)
    (hx : Panel.equals x q = true) : Panel.equals v x = true := by
  rw [equals_congr_of_right v hx]
  exact hv

theorem equals_scanGo_left (res : List Panel) (acc : Panel × Bool) (y : Panel) :
    Panel.equals (scanGo res acc).1 y = Panel.equals acc.1 y := by
  rw [equals_symm, equals_scanGo, equals_symm]

theorem mergeOne_fst (res : List Panel) (maxY : Int) (x : Panel) :
    (mergeOne res maxY x).1 =
      if (scanMatches res x).2 then
        res.map (fun r => if Panel.equals r x then (scanMatches res x).1 else r)
      else res ++ [mSet x "gridPos" (encodeGridPos (GridPos.mk 2 6 0 (maxY + 1)))] := by
  simp only [mergeOne]
  cases hs : (scanMatches res x).2 <;> simp [hs]

theorem slotInv_mergeOne (q : Panel) (n : Nat) (G I : Option Json) (res : List Panel)
    (maxY : Int) (x : Panel) (h : slotInv q n G I res) :
    slotInv q n G I (mergeOne res maxY x).1 := by
  obtain ⟨a, v, b, hres, hlen, hvq, hG, hI, ha, hb⟩ := h
  rw [mergeOne_fst]
  cases hs : (scanMatches res x).2
  · simp only [Bool.false_eq_true, if_false]
    have hxq : Panel.equals x q = false := by
      cases hxq : Panel.equals x q
      · rfl
      · exfalso
        have hvx : Panel.equals v x = true := equals_both hvq hxq
        have hm : (scanMatches res x).2 = true := by
          rw [scanMatches, scanGo_snd]
          simp only [Bool.false_or, List.any_eq_true]
          exact ⟨v, by simp [hres], hvx⟩
        rw [hs] at hm; cases hm
    refine ⟨a, v, b ++ [mSet x "gridPos" (encodeGridPos (GridPos.mk 2 6 0 (maxY + 1)))],
      by rw [hres]; simp, hlen, hvq, hG, hI, ha, ?_⟩
    intro r hr
    rcases List.mem_append.1 hr with hr | hr
    · exact hb r hr
    · have : r = mSet x "gridPos" (encodeGridPos (GridPos.mk 2 6 0 (maxY + 1))) := by
        simpa using hr
      rw [this, equals_mSet_gridPos_left, hxq]
  · simp only [if_true]
    have hclass : ∀ y : Panel, Panel.equals (scanMatches res x).1 y = Panel.equals x y :=
      fun y => equals_scanGo_left res (x, false) y
    cases hxq : Panel.equals x q
    · have hvx : Panel.equals v x = false := by
        cases hvx : Panel.equals v x
        · rfl
        · exfalso
          have hxv : Panel.equals x v = true := by rw [equals_symm]; exact hvx
          have he : Panel.equals x q = Panel.equals v q := equals_trans_left q hxv
          rw [hxq, hvq] at he; cases he
      refine ⟨a.map (fun r => if Panel.equals r x then (scanMatches res x).1 else r),
        v,
        b.map (fun r => if Panel.equals r x then (scanMatches res x).1 else r),
        ?_, by simp [hlen], hvq, hG, hI, ?_, ?_⟩
      · rw [hres]
        simp only [List.map_append, List.map_cons]
        rw [if_neg (by simp [hvx])]
      · intro r hr
        rcases List.mem_map.1 hr with ⟨r0, hr0, hmap⟩
        cases hr0x : Panel.equals r0 x
        · rw [← hmap, if_neg (by simp [hr0x])]
          exact ha r0 hr0
        · rw [← hmap, if_pos (by simp [hr0x]), hclass q, hxq]
      · intro r hr
        rcases List.mem_map.1 hr with ⟨r0, hr0, hmap⟩
        cases hr0x : Panel.equals r0 x
        · rw [← hmap, if_neg (by simp [hr0x])]
          exact hb r0 hr0
        · rw [← hmap, if_pos (by simp [hr0x]), hclass q, hxq]
    · have hvx : Panel.equals v x = true := equals_both hvq hxq
      have hax : ∀ r ∈ a, Panel.equals r x = false := by
        intro r hr
        rw [equals_congr_of_right r hxq]
        exact ha r hr
      have hbx : ∀ r ∈ b, Panel.equals r x = false := by
        intro r hr
        rw [equals_congr_of_right r hxq]
        exact hb r hr
      have hs1 : (scanMatches (a ++ v :: b) x).1 = setGridId x v := by
        rw [scanMatches]
        exact scanGo_last_match a b v x false hvx hbx
      refine ⟨a, setGridId x v, b, ?_, hlen, ?_, ?_, ?_, ha, hb⟩
      · rw [hres]
        simp only [List.map_append, List.map_cons]
        rw [map_id_of a _ (fun r hr => by rw [if_neg (by simp [hax r hr])]),
          map_id_of b _ (fun r hr => by rw [if_neg (by simp [hbx r hr])]),
          if_pos (by simp [hvx]), hs1]
      · rw [equals_setGridId_left, hxq]
      · rw [mGet_setGridId_gridPos]
        exact hG
      · rw [mGet_setGridId_id]
        exact hI

theorem slotDone_mergeOne (q vf : Panel) (n : Nat) (res : List Panel) (maxY : Int) (x : Panel)
    (hvfq : Panel.equals vf q = true) (hqx : Panel.equals q x = false)
    (h : slotDone q vf n res) : slotDone q vf n (mergeOne res maxY x).1 := by
  obtain ⟨a, b, hres, hlen, ha, hb⟩ := h
  have hxq : Panel.equals x q = false := by rw [equals_symm]; exact hqx
  rw [mergeOne_fst]
  cases hs : (scanMatches res x).2
  · simp only [Bool.false_eq_true, if_false]
    refine ⟨a, b ++ [mSet x "gridPos" (encodeGridPos (GridPos.mk 2 6 0 (maxY + 1)))],
      by rw [hres]; simp, hlen, ha, ?_⟩
    intro r hr
    rcases List.mem_append.1 hr with hr | hr
    · exact hb r hr
    · have : r = mSet x "gridPos" (encodeGridPos (GridPos.mk 2 6 0 (maxY + 1))) := by
        simpa using hr
      rw [this, equals_mSet_gridPos_left, hxq]
  · simp only [if_true]
    have hclass : Panel.equals (scanMatches res x).1 q = Panel.equals x q :=
      equals_scanGo_left res (x, false) q
    have hvfx : Panel.equals vf x = false := by
      rw [equals_trans_left x hvfq]
      exact hqx
    refine ⟨a.map (fun r => if Panel.equals r x then (scanMatches res x).1 else r),
      b.map (fun r => if Panel.equals r x then (scanMatches res x).1 else r),
      ?_, by simp [hlen], ?_, ?_⟩
    · rw [hres]
      simp only [List.map_append, List.map_cons]
      rw [if_neg (by simp [hvfx])]
    · intro r hr
      rcases List.mem_map.1 hr with ⟨r0, hr0, hmap⟩
      cases hr0x : Panel.equals r0 x
      · rw [← hmap, if_neg (by simp [hr0x])]
        exact ha r0 hr0
      · rw [← hmap, if_pos (by simp [hr0x]), hclass, hxq]
    · intro r hr
      rcases List.mem_map.1 hr with ⟨r0, hr0, hmap⟩
      cases hr0x : Panel.equals r0 x
      · rw [← hmap, if_neg (by simp [hr0x])]
        exact hb r0 hr0
      · rw [← hmap, if_pos (by simp [hr0x]), hclass, hxq]

theorem slotInv_mergeGo (q : Panel) (n : Nat) (G I : Option Json) (l : List Panel) :
    ∀ acc : List Panel × Int, slotInv q n G I acc.1 → slotInv q n G I (mergeGo acc l).1 := by
  induction l with
  | nil => intro acc h; exact h
  | cons x xs ih =>
    intro acc h
    rw [mergeGo_cons]
    exact ih _ (slotInv_mergeOne q n G I acc.1 acc.2 x h)

theorem slotDone_mergeGo (q vf : Panel) (n : Nat) (l : List Panel) :
    ∀ acc : List Panel × Int, Panel.equals vf q = true →
      (∀ x ∈ l, Panel.equals q x = false) → slotDone q vf n acc.1 →
      slotDone q vf n (mergeGo acc l).1 := by
  induction l with
  | nil => intro acc _ _ h; exact h
  | cons x xs ih =>
    intro acc hvfq hl h
    rw [mergeGo_cons]
    exact ih _ hvfq (fun y hy => hl y (by simp [hy]))
      (slotDone_mergeOne q vf n acc.1 acc.2 x hvfq (hl x (by simp)) h)

theorem mergeGo_length_inv (l : List Panel) (acc : List Panel × Int)
    (h : ∀ q ∈ l, ∃ r ∈ acc.1, Panel.equals r q = true) :
    ((mergeGo acc l).1).length = acc.1.length := by
  induction l generalizing acc with
  | nil => rfl
  | cons q qs ih =>
    rw [mergeGo_cons]
    obtain ⟨r, hmem, hr⟩ := h q (by simp)
    have hmatched : (scanMatches acc.1 q).2 = true := by
      rw [scanMatches, scanGo_snd]
      simp only [Bool.false_or, List.any_eq_true]
      exact ⟨r, hmem, hr⟩
    have hshape : (mergeOne acc.1 acc.2 q).1 =
        acc.1.map (fun r => if Panel.equals r q then (scanMatches acc.1 q).1 else r) := by
      simp [mergeOne, hmatched]
    have hrest : ∀ q' ∈ qs, ∃ r' ∈ (mergeOne acc.1 acc.2 q).1, Panel.equals r' q' = true :=
      fun q' hq' => mergeOne_cover acc.1 acc.2 q q' (h q' (by simp [hq']))
    rw [ih (mergeOne acc.1 acc.2 q) hrest, hshape, List.length_map]

theorem ite_gt_max (m a : Int) : (if a > m then a else m) = max m a := by
  rcases le_or_lt a m with h | h
  · rw [if_neg (not_lt.2 h), max_eq_left h]
  · rw [if_pos h, max_eq_right h.le]

theorem foldl_congr_fun {α β : Type} (l : List β) (f g : α → β → α) (init : α)
    (h : ∀ a b, f a b = g a b) : l.foldl f init = l.foldl g init := by
  induction l generalizing init with
  | nil => rfl
  | cons x xs ih => simp only [List.foldl_cons, h, ih]

theorem maxYOf_eq_foldl_max (ps : List Panel) :
    maxYOf ps =
      ps.foldl (fun m p => max m ((Panel.gridPos p).y + (Panel.gridPos p).h)) 0 := by
  unfold maxYOf
  exact foldl_congr_fun ps _ _ 0
    (fun m p => ite_gt_max m ((Panel.gridPos p).y + (Panel.gridPos p).h))

/-! Claim theorems. -/

/-- C2 counterexample: with an empty base, both copies of the same incoming
panel have no title and type match in the base, yet the output holds a single
panel, because the second copy matches the first one, already appended to the
result.  The claim, which predicts two appended panels, is therefore false as
stated. -/
theorem c2_counterexample :
    (∀ r ∈ ([] : List Panel), Panel.equals r pT = false) ∧
    (MergePanels [] [pT, pT]).length = 1 := by
  constructor
  · intro r hr
    cases hr
  · rfl

/-- C2 amended: a panel of the incoming sequence that matches no panel of the
result built so far (the base plus the previously appended unmatched incoming
panels) is appended after all current panels with the default rectangle x 0,
y maxBottom plus 1, w 6, h 2, and the running maxBottom grows by 2; maxBottom
starts as the maximum over the base of gridPos.y plus gridPos.h, zero for an
empty base, and MergePanels is exactly the fold of this step from that
start. -/
theorem c2_unmatched_append_amended (ps1 ps2 res : List Panel) (maxY : Int) (q : Panel)
    (hwf : ∀ p ∈ ps1, Panel.gpWF p = true)
    (hnm : ∀ r ∈ res, Panel.equals r q = false) :
    MergePanels ps1 ps2 = (mergeGo (ps1, maxYOf ps1) ps2).1 ∧
    maxYOf ps1 =
      ps1.foldl (fun m p => max m ((Panel.gridPos p).y + (Panel.gridPos p).h)) 0 ∧
    mergeOne res maxY q =
      (res ++ [mSet q "gridPos" (encodeGridPos (GridPos.mk 2 6 0 (maxY + 1)))], maxY + 2) :=
  ⟨rfl, maxYOf_eq_foldl_max ps1, mergeOne_nomatch res maxY q hnm⟩

theorem c2_witness :
    (∀ p ∈ [pId1], Panel.gpWF p = true) ∧
    (∀ r ∈ [pId1], Panel.equals r qB = false) ∧
    (MergePanels [pId1] [qB] = (mergeGo ([pId1], maxYOf [pId1]) [qB]).1 ∧
     maxYOf [pId1] =
       [pId1].foldl (fun m p => max m ((Panel.gridPos p).y + (Panel.gridPos p).h)) 0 ∧
     mergeOne [pId1] 5 qB =
       ([pId1] ++ [mSet qB "gridPos" (encodeGridPos (GridPos.mk 2 6 0 (5 + 1)))], 5 + 2)) :=
  ⟨by decide, by decide,
   c2_unmatched_append_amended [pId1] [qB] [pId1] 5 qB (by decide) (by decide)⟩

/-- C7: merging a sequence with itself yields exactly as many panels as the
input: every incoming panel finds a match (itself, or an earlier panel of the
same identity class), so no unmatched append happens.  The gridPos
well-formedness hypothesis rules out the inputs on which the Go code would
panic while reading base rectangles. -/
theorem c7_self_merge_length (ps : List Panel) (hwf : ∀ p ∈ ps, Panel.gpWF p = true) :
    (MergePanels ps ps).length = ps.length :=
  mergeGo_length_inv ps (ps, maxYOf ps) (fun q hq => ⟨q, hq, equals_refl q⟩)

theorem c7_witness :
    (∀ p ∈ [pId1, pU], Panel.gpWF p = true) ∧
    (MergePanels [pId1, pU] [pId1, pU]).length = [pId1, pU].length :=
  ⟨by decide, c7_self_merge_length [pId1, pU] (by decide)⟩

/-- C9: when the incoming panel q matches several slots of the result, every
matched slot receives one and the same panel, namely q carrying the raw
gridPos and id of the last matching slot; in Go all matched slots alias the
single mutated map p2, whose final gridPos and id writes come from the last
match of the scan. -/
theorem c9_multimatch_last_wins (l1 l2 l3 : List Panel) (p1 p2m q : Panel)
    (hwf : ∀ r ∈ l1 ++ p1 :: l2 ++ p2m :: l3, Panel.gpWF r = true)
    (h1 : Panel.equals p1 q = true) (h2 : Panel.equals p2m q = true)
    (h3 : ∀ r ∈ l3, Panel.equals r q = false) :
    MergePanels (l1 ++ p1 :: l2 ++ p2m :: l3) [q] =
      (l1 ++ p1 :: l2 ++ p2m :: l3).map
        (fun r => if Panel.equals r q then setGridId q p2m else r) := by
  have hb : l1 ++ p1 :: l2 ++ p2m :: l3 = (l1 ++ p1 :: l2) ++ p2m :: l3 := by simp
  unfold MergePanels
  have hone : mergeGo (l1 ++ p1 :: l2 ++ p2m :: l3, maxYOf (l1 ++ p1 :: l2 ++ p2m :: l3)) [q] =
      mergeOne (l1 ++ p1 :: l2 ++ p2m :: l3) (maxYOf (l1 ++ p1 :: l2 ++ p2m :: l3)) q := rfl
  rw [hone, hb, mergeOne_match_shape (l1 ++ p1 :: l2) l3 p2m _ q h2 h3]

theorem c9_witness :
    (∀ r ∈ ([] : List Panel) ++ pId1 :: ([] : List Panel) ++ pId2 :: ([] : List Panel),
      Panel.gpWF r = true) ∧
    Panel.equals pId1 qV2 = true ∧ Panel.equals pId2 qV2 = true ∧
    MergePanels (([] : List Panel) ++ pId1 :: ([] : List Panel) ++ pId2 :: ([] : List Panel))
        [qV2] =
      (([] : List Panel) ++ pId1 :: ([] : List Panel) ++ pId2 :: ([] : List Panel)).map
        (fun r => if Panel.equals r qV2 then setGridId qV2 pId2 else r) :=
  ⟨by decide, by decide, by decide,
   c9_multimatch_last_wins [] [] [] pId1 pId2 qV2 (by decide) (by decide) (by decide)
     (by decide)⟩

/-- C1 counterexample: the base holds two panels of the same identity class
with distinct ids and rectangles; after merging one matching incoming panel,
the first slot carries the id and gridPos of the second, last-matching slot,
not its own original id and gridPos, refuting the claim for the pair made of
the first base panel and the incoming panel. -/
theorem c1_counterexample :
    Panel.equals pId1 qV2 = true ∧
    mGet pId1 "id" = some (Json.num 1) ∧
    mGet pId1 "gridPos" = some (encodeGridPos (GridPos.mk 1 1 0 0)) ∧
    ((MergePanels [pId1, pId2] [qV2]).head?.bind (fun r => mGet r "id")) =
      some (Json.num 2) ∧
    ((MergePanels [pId1, pId2] [qV2]).head?.bind (fun r => mGet r "gridPos")) =
      some (encodeGridPos (GridPos.mk 1 1 1 0)) ∧
    Json.num 2 ≠ Json.num 1 ∧
    encodeGridPos (GridPos.mk 1 1 1 0) ≠ encodeGridPos (GridPos.mk 1 1 0 0) := by
  decide

/-- C1 amended: for a base panel p matched by an incoming panel q, when p is
the only panel of q's identity class in the base and q is the last panel of
that class in the incoming sequence, the slot at p's position in the output
holds exactly q's fields with gridPos and id forced to p's original raw
values; when several base slots match, all of them instead receive the last
matching slot's id and gridPos. -/
theorem c1_match_overwrite_amended (l1 l2 m1 m2 : List Panel) (p q : Panel)
    (hwf : ∀ r ∈ l1 ++ p :: l2, Panel.gpWF r = true)
    (hpq : Panel.equals p q = true)
    (hl1 : ∀ r ∈ l1, Panel.equals r q = false)
    (hl2 : ∀ r ∈ l2, Panel.equals r q = false)
    (hm2 : ∀ x ∈ m2, Panel.equals q x = false) :
    ∃ a b, MergePanels (l1 ++ p :: l2) (m1 ++ q :: m2) = a ++ setGridId q p :: b ∧
      a.length = l1.length := by
  unfold MergePanels
  rw [mergeGo_append]
  have h0 : slotInv q l1.length (mGet p "gridPos") (mGet p "id") (l1 ++ p :: l2) :=
    ⟨l1, p, l2, rfl, rfl, hpq, rfl, rfl, hl1, hl2⟩
  have h1 := slotInv_mergeGo q l1.length (mGet p "gridPos") (mGet p "id") m1
    (l1 ++ p :: l2, maxYOf (l1 ++ p :: l2)) h0
  obtain ⟨a, v, b, hres, hlen, hvq, hG, hI, ha, hb⟩ := h1
  rw [mergeGo_cons]
  have hstep : (mergeOne (mergeGo (l1 ++ p :: l2, maxYOf (l1 ++ p :: l2)) m1).1
      (mergeGo (l1 ++ p :: l2, maxYOf (l1 ++ p :: l2)) m1).2 q).1 =
      a ++ setGridId q p :: b := by
    rw [hres, mergeOne_match_shape a b v _ q hvq hb]
    simp only [List.map_append, List.map_cons]
    rw [map_id_of a _ (fun r hr => by rw [if_neg (by simp [ha r hr])]),
      map_id_of b _ (fun r hr => by rw [if_neg (by simp [hb r hr])]),
      if_pos (by simp [hvq]), setGridId_congr_right q hG hI]
  have h2 : slotDone q (setGridId q p) l1.length
      ((mergeOne (mergeGo (l1 ++ p :: l2, maxYOf (l1 ++ p :: l2)) m1).1
        (mergeGo (l1 ++ p :: l2, maxYOf (l1 ++ p :: l2)) m1).2 q).1) :=
    ⟨a, b, hstep, hlen, ha, hb⟩
  have hvfq : Panel.equals (setGridId q p) q = true := by
    rw [equals_setGridId_left]
    exact equals_refl q
  have h3 := slotDone_mergeGo q (setGridId q p) l1.length m2
    (mergeOne (mergeGo (l1 ++ p :: l2, maxYOf (l1 ++ p :: l2)) m1).1
      (mergeGo (l1 ++ p :: l2, maxYOf (l1 ++ p :: l2)) m1).2 q) hvfq hm2 h2
  obtain ⟨a', b', hres', hlen', _, _⟩ := h3
  exact ⟨a', b', hres', hlen'⟩

theorem c1_witness :
    (∀ r ∈ [pU] ++ pId1 :: ([] : List Panel), Panel.gpWF r = true) ∧
    Panel.equals pId1 qV2 = true ∧
    (∀ r ∈ [pU], Panel.equals r qV2 = false) ∧
    (∀ r ∈ ([] : List Panel), Panel.equals r qV2 = false) ∧
    (∀ x ∈ [qZ], Panel.equals qV2 x = false) ∧
    (∃ a b, MergePanels ([pU] ++ pId1 :: ([] : List Panel)) ([qB] ++ qV2 :: [qZ]) =
      a ++ setGridId qV2 pId1 :: b ∧ a.length = [pU].length) :=
  ⟨by decide, by decide, by decide, by decide, by decide,
   c1_match_overwrite_amended [pU] [] [qB] [qZ] pId1 qV2 (by decide) (by decide) (by decide)
     (by decide) (by decide)⟩

/-- The row branch of groupByRowStep, when the title is absent or does not
read as a Go string, keeps the current group name unchanged and records the
marker and its embedded panels under that stale name. -/
theorem groupByRowStep_row_stale (st : GState) (p : Panel) (tj : Json)
    (hty : mGet p "type" = some tj) (hrow : decodeGoString tj = some "row")
    (htitle : mGet p "title" = none ∨
      ∃ tr, mGet p "title" = some tr ∧ decodeGoString tr = none) :
    groupByRowStep st p = GState.mk
      (mAppendGroup st.groups st.groupName (retrieveEmbeddedPanels p))
      (mSet st.rows st.groupName (clearRow p))
      st.groupName := by
  rcases htitle with htitle | ⟨tr, htr, hdec⟩
  · simp [groupByRowStep, hty, hrow, htitle]
  · simp [groupByRowStep, hty, hrow, htr, hdec]

/-- C4 counterexample: after a row titled A, a row marker with no title is
recorded under the stale group A, overwriting the rows entry for A, and
nothing at all is recorded under the group none, refuting the claim that the
default none applies. -/
theorem c4_counterexample :
    mGet rowX "title" = none ∧
    mGet (groupByRow [rowA, rowX]).2 "none" = none ∧
    mGet (groupByRow [rowA, rowX]).2 "A" = some (clearRow rowX) := by
  decide

/-- C4 amended: when a row marker's title is absent or cannot be read as a
string, groupByRow leaves the current group name unchanged, so the marker and
its flattened nested panels are recorded under the previous group; that group
is none only when no earlier row marker changed it. -/
theorem c4_row_title_stale_amended (st : GState) (p : Panel) (tj : Json)
    (hty : mGet p "type" = some tj) (hrow : decodeGoString tj = some "row")
    (htitle : mGet p "title" = none ∨
      ∃ tr, mGet p "title" = some tr ∧ decodeGoString tr = none) :
    (groupByRowStep st p).groupName = st.groupName ∧
    (groupByRowStep st p).rows = mSet st.rows st.groupName (clearRow p) ∧
    (groupByRowStep st p).groups =
      mAppendGroup st.groups st.groupName (retrieveEmbeddedPanels p) := by
  rw [groupByRowStep_row_stale st p tj hty hrow htitle]
  exact ⟨rfl, rfl, rfl⟩

theorem c4_witness :
    mGet rowX "type" = some (Json.str "row") ∧
    decodeGoString (Json.str "row") = some "row" ∧
    (mGet rowX "title" = none ∨
      ∃ tr, mGet rowX "title" = some tr ∧ decodeGoString tr = none) ∧
    ((groupByRowStep (GState.mk [] [] "A") rowX).groupName = "A" ∧
     (groupByRowStep (GState.mk [] [] "A") rowX).rows =
       mSet [] "A" (clearRow rowX) ∧
     (groupByRowStep (GState.mk [] [] "A") rowX).groups =
       mAppendGroup [] "A" (retrieveEmbeddedPanels rowX)) :=
  ⟨by decide, by decide, Or.inl (by decide),
   c4_row_title_stale_amended (GState.mk [] [] "A") rowX (Json.str "row") (by decide)
     (by decide) (Or.inl (by decide))⟩

theorem repackStates_rowW_bound (ps : List Panel) :
    ∀ st : RState, 0 ≤ st.rowW →
      (∀ p ∈ ps, 0 ≤ (Panel.gridPos p).w ∧ (Panel.gridPos p).w ≤ 24) →
      ∀ s ∈ repackStates st ps, 0 ≤ s.rowW ∧ s.rowW ≤ 24 := by
  induction ps with
  | nil =>
    intro st h0 hw s hs
    cases hs
  | cons p ps ih =>
    intro st h0 hw s hs
    obtain ⟨hw0, hw24⟩ := hw p (by simp)
    have hbound : 0 ≤ (repackStep st p).1.rowW ∧ (repackStep st p).1.rowW ≤ 24 := by
      by_cases hc : st.rowW + (Panel.gridPos p).w > 24
      · simp only [repackStep, if_pos hc]
        constructor <;> omega
      · simp only [repackStep, if_neg hc]
        constructor <;> omega
    rw [repackStates] at hs
    rcases List.mem_cons.1 hs with rfl | hs
    · exact hbound
    · exact ih _ hbound.1 (fun p' hp' => hw p' (by simp [hp'])) s hs

/-- C6: with every width between 0 and 24, the running row width after each
placement stays between 0 and 24, so consecutive panels of one row never
exceed the grid width; and the repacking step starts a new row, advancing y
by the row's maximum height and resetting x to 0, exactly when adding the
panel's width to the current row would exceed 24, otherwise placing it at the
current cursor. -/
theorem c6_repack_row_invariant (ps : List Panel)
    (hwf : ∀ p ∈ ps, Panel.gpWF p = true)
    (hw : ∀ p ∈ ps, 0 ≤ (Panel.gridPos p).w ∧ (Panel.gridPos p).w ≤ 24) :
    (∀ s ∈ repackStates (RState.mk 0 0 0) ps, 0 ≤ s.rowW ∧ s.rowW ≤ 24) ∧
    (∀ (st : RState) (p : Panel),
      (st.rowW + (Panel.gridPos p).w > 24 →
        repackStep st p =
          (RState.mk (st.y + st.rowMaxH) (0 + (Panel.gridPos p).w)
            (if (Panel.gridPos p).h > 0 then (Panel.gridPos p).h else 0),
           mSet p "gridPos" (encodeGridPos
             (GridPos.mk (Panel.gridPos p).h (Panel.gridPos p).w 0
               (st.y + st.rowMaxH))))) ∧
      (¬ st.rowW + (Panel.gridPos p).w > 24 →
        repackStep st p =
          (RState.mk st.y (st.rowW + (Panel.gridPos p).w)
            (if (Panel.gridPos p).h > st.rowMaxH then (Panel.gridPos p).h else st.rowMaxH),
           mSet p "gridPos" (encodeGridPos
             (GridPos.mk (Panel.gridPos p).h (Panel.gridPos p).w st.rowW st.y))))) := by
  constructor
  · exact repackStates_rowW_bound ps (RState.mk 0 0 0) le_rfl hw
  · intro st p
    constructor
    · intro hc
      simp [repackStep, hc]
    · intro hc
      simp [repackStep, hc]

/-- The walk over ps1 on a row-typed panel: the header goes out
unconditionally, the merged content only when the title is unseen. -/
theorem walkStep_row (rows1 rows2 : PMap Panel) (merged : PMap (List Panel))
    (acc : List Panel × List String) (p : Panel) (tj : Json)
    (hty : mGet p "type" = some tj) (hrow : decodeGoString tj = some "row") :
    walkStep rows1 rows2 merged acc p =
      if acc.2.contains (rowWalkTitle p) then
        (acc.1 ++ [walkHeader rows1 rows2 p], acc.2)
      else
        (acc.1 ++ [walkHeader rows1 rows2 p] ++ (mGet merged (rowWalkTitle p)).getD [],
         rowWalkTitle p :: acc.2) := by
  simp only [walkStep, hty, hrow, if_pos rfl]
  cases hcont : acc.2.contains (rowWalkTitle p)
  · simp only [Bool.false_eq_true, if_false]
    cases hm : mGet merged (rowWalkTitle p) <;> simp [hm]
  · simp only [if_true]

/-- C5 counterexample: two row markers in ps1 with the same title A produce
two copies of the A header in the output of MergePanelsByGroup, so the header
append is not covered by the seen guard. -/
theorem c5_counterexample :
    rowWalkTitle rowA1 = "A" ∧ rowWalkTitle rowA2 = "A" ∧
    List.Perm ["A"] (mergedKeysOf [rowA1, rowA2] []) ∧
    MergePanelsByGroup [rowA1, rowA2] [] false ["A"] =
      [mSet (clearRow rowA2) "gridPos" (encodeGridPos (GridPos.mk 0 0 0 0)),
       mSet (clearRow rowA2) "gridPos" (encodeGridPos (GridPos.mk 0 0 0 0))] ∧
    (MergePanelsByGroup [rowA1, rowA2] [] false ["A"]).countP isRowTyped = 2 := by
  decide

/-- C5 amended: in the walk over ps1 the seen guard covers only the merged
group content, not the header: at every row marker the chosen header is
appended, and the merged content for the resolved title is appended exactly
when that title has not been seen, the title being marked seen either way. -/
theorem c5_header_per_occurrence_amended (rows1 rows2 : PMap Panel)
    (merged : PMap (List Panel)) (acc : List Panel × List String) (p : Panel) (tj : Json)
    (hty : mGet p "type" = some tj) (hrow : decodeGoString tj = some "row") :
    walkStep rows1 rows2 merged acc p =
      if acc.2.contains (rowWalkTitle p) then
        (acc.1 ++ [walkHeader rows1 rows2 p], acc.2)
      else
        (acc.1 ++ [walkHeader rows1 rows2 p] ++ (mGet merged (rowWalkTitle p)).getD [],
         rowWalkTitle p :: acc.2) :=
  walkStep_row rows1 rows2 merged acc p tj hty hrow

theorem c5_witness :
    mGet rowA1 "type" = some (Json.str "row") ∧
    decodeGoString (Json.str "row") = some "row" ∧
    walkStep [("A", clearRow rowA2)] [] [("A", [pT])] ([], ["A"]) rowA1 =
      (if (["A"] : List String).contains (rowWalkTitle rowA1) then
        (([] : List Panel) ++ [walkHeader [("A", clearRow rowA2)] [] rowA1], ["A"])
      else
        (([] : List Panel) ++ [walkHeader [("A", clearRow rowA2)] [] rowA1] ++
          (mGet [("A", [pT])] (rowWalkTitle rowA1)).getD [],
         rowWalkTitle rowA1 :: ["A"])) :=
  ⟨by decide, by decide,
   c5_header_per_occurrence_amended [("A", clearRow rowA2)] [] [("A", [pT])] ([], ["A"])
     rowA1 (Json.str "row") (by decide) (by decide)⟩

/-! Lemmas about clearIfRow, the walk and groupByRow, shared by the
group-level claims. -/

theorem strContains_iff (l : List String) (t : String) :
    l.contains t = true ↔ t ∈ l :=
  ⟨fun h => List.mem_of_elem_eq_true h, fun h => List.elem_eq_true_of_mem h⟩

theorem mGet_clearRow_ne (p : Panel) {k : String}
    (h1 : k ≠ "panels") (h2 : k ≠ "collapsed") : mGet (clearRow p) k = mGet p k := by
  unfold clearRow
  rw [mGet_mSet_ne _ _ h2, mGet_mSet_ne _ _ h1]

theorem mGet_clearIfRow_type (p : Panel) : mGet (clearIfRow p) "type" = mGet p "type" := by
  unfold clearIfRow
  cases h : isRowTyped p
  · rw [if_neg (by simp [h])]
  · rw [if_pos (by simp [h])]
    exact mGet_clearRow_ne p (by decide) (by decide)

theorem mGet_clearIfRow_title (p : Panel) : mGet (clearIfRow p) "title" = mGet p "title" := by
  unfold clearIfRow
  cases h : isRowTyped p
  · rw [if_neg (by simp [h])]
  · rw [if_pos (by simp [h])]
    exact mGet_clearRow_ne p (by decide) (by decide)

theorem isRowTyped_clearIfRow (p : Panel) : isRowTyped (clearIfRow p) = isRowTyped p := by
  unfold isRowTyped
  rw [mGet_clearIfRow_type]

theorem rowWalkTitle_clearIfRow (p : Panel) :
    rowWalkTitle (clearIfRow p) = rowWalkTitle p := by
  unfold rowWalkTitle
  rw [mGet_clearIfRow_title]

theorem isRowTyped_exists (p : Panel) (h : isRowTyped p = true) :
    ∃ tj, mGet p "type" = some tj ∧ decodeGoString tj = some "row" := by
  unfold isRowTyped at h
  cases hty : mGet p "type" with
  | none => simp only [hty] at h; cases h
  | some tj =>
    simp only [hty] at h
    cases hdec : decodeGoString tj with
    | none => simp only [hdec] at h; cases h
    | some ty =>
      simp only [hdec] at h
      have hr : ty = "row" := by simpa using h
      exact ⟨tj, rfl, by rw [hdec, hr]⟩

theorem walkStep_nonrow (rows1 rows2 : PMap Panel) (merged : PMap (List Panel))
    (acc : List Panel × List String) (p : Panel) (h : isRowTyped p = false) :
    walkStep rows1 rows2 merged acc p = acc := by
  unfold walkStep
  cases hty : mGet p "type" with
  | none => rfl
  | some tj =>
    cases hdec : decodeGoString tj with
    | none => simp only [hdec]
    | some ty =>
      unfold isRowTyped at h
      simp only [hty, hdec] at h
      have hne : ¬ ty = "row" := by simpa using h
      simp only [hdec, if_neg hne]

theorem walkGo_cons (rows1 rows2 : PMap Panel) (merged : PMap (List Panel))
    (acc : List Panel × List String) (p : Panel) (ps : List Panel) :
    walkGo rows1 rows2 merged acc (p :: ps) =
      walkGo rows1 rows2 merged (walkStep rows1 rows2 merged acc p) ps := rfl

theorem walkGo_append (rows1 rows2 : PMap Panel) (merged : PMap (List Panel))
    (acc : List Panel × List String) (a b : List Panel) :
    walkGo rows1 rows2 merged acc (a ++ b) =
      walkGo rows1 rows2 merged (walkGo rows1 rows2 merged acc a) b := by
  simp [walkGo, List.foldl_append]

theorem walkStep_grow (rows1 rows2 : PMap Panel) (merged : PMap (List Panel))
    (acc : List Panel × List String) (p : Panel) :
    ∃ suf, (walkStep rows1 rows2 merged acc p).1 = acc.1 ++ suf := by
  cases h : isRowTyped p
  · exact ⟨[], by rw [walkStep_nonrow rows1 rows2 merged acc p h]; simp⟩
  · obtain ⟨tj, hty, hrow⟩ := isRowTyped_exists p h
    rw [walkStep_row rows1 rows2 merged acc p tj hty hrow]
    cases hc : acc.2.contains (rowWalkTitle p)
    · exact ⟨[walkHeader rows1 rows2 p] ++ (mGet merged (rowWalkTitle p)).getD [],
        by simp [hc]⟩
    · exact ⟨[walkHeader rows1 rows2 p], by simp [hc]⟩

theorem walkGo_grow (rows1 rows2 : PMap Panel) (merged : PMap (List Panel)) (ps : List Panel) :
    ∀ acc : List Panel × List String,
      ∃ suf, (walkGo rows1 rows2 merged acc ps).1 = acc.1 ++ suf := by
  induction ps with
  | nil => intro acc; exact ⟨[], by simp [walkGo]⟩
  | cons p ps ih =>
    intro acc
    rw [walkGo_cons]
    obtain ⟨s1, hs1⟩ := walkStep_grow rows1 rows2 merged acc p
    obtain ⟨s2, hs2⟩ := ih (walkStep rows1 rows2 merged acc p)
    exact ⟨s1 ++ s2, by rw [hs2, hs1, List.append_assoc]⟩

theorem walkStep_seen_cases (rows1 rows2 : PMap Panel) (merged : PMap (List Panel))
    (acc : List Panel × List String) (p : Panel) :
    (walkStep rows1 rows2 merged acc p).2 = acc.2 ∨
      (isRowTyped p = true ∧
        (walkStep rows1 rows2 merged acc p).2 = rowWalkTitle p :: acc.2) := by
  cases h : isRowTyped p
  · exact Or.inl (by rw [walkStep_nonrow rows1 rows2 merged acc p h])
  · obtain ⟨tj, hty, hrow⟩ := isRowTyped_exists p h
    rw [walkStep_row rows1 rows2 merged acc p tj hty hrow]
    cases hc : acc.2.contains (rowWalkTitle p)
    · exact Or.inr ⟨rfl, by simp [hc]⟩
    · exact Or.inl (by simp [hc])

theorem walkGo_seen_not_mem (rows1 rows2 : PMap Panel) (merged : PMap (List Panel))
    (t : String) (ps : List Panel) :
    ∀ acc : List Panel × List String,
      (∀ p ∈ ps, isRowTyped p = false ∨ rowWalkTitle p ≠ t) →
      t ∉ acc.2 → t ∉ (walkGo rows1 rows2 merged acc ps).2 := by
  induction ps with
  | nil => intro acc _ ht; exact ht
  | cons p ps ih =>
    intro acc hps ht
    rw [walkGo_cons]
    refine ih _ (fun p' hp' => hps p' (by simp [hp'])) ?_
    rcases walkStep_seen_cases rows1 rows2 merged acc p with hsc | ⟨hrow, hsc⟩
    · rw [hsc]; exact ht
    · rw [hsc]
      intro hmem
      rcases List.mem_cons.1 hmem with he | hmem
      · rcases hps p (by simp) with hnr | hne
        · rw [hrow] at hnr; cases hnr
        · exact hne he.symm
      · exact ht hmem

theorem walkHeader_rows1 (rows1 rows2 : PMap Panel) (p h : Panel)
    (hh : mGet rows1 (rowWalkTitle p) = some h) : walkHeader rows1 rows2 p = h := by
  simp [walkHeader, hh]

theorem groupByRowStep_row_resolved (st : GState) (p : Panel) (tj tr : Json) (t : String)
    (hty : mGet p "type" = some tj) (hrow : decodeGoString tj = some "row")
    (htr : mGet p "title" = some tr) (hdec : decodeGoString tr = some t) :
    groupByRowStep st p = GState.mk
      (mAppendGroup st.groups t (retrieveEmbeddedPanels p))
      (mSet st.rows t (clearRow p)) t := by
  simp [groupByRowStep, hty, hrow, htr, hdec]

theorem mGet_mSet_ne_none {α : Type} (m : PMap α) (k t : String) (v : α)
    (h : mGet m t ≠ none) : mGet (mSet m k v) t ≠ none := by
  by_cases he : t = k
  · rw [he, mGet_mSet_self]
    exact Option.some_ne_none v
  · rw [mGet_mSet_ne _ _ he]
    exact h

theorem groupByRowStep_rows_mono (st : GState) (p : Panel) (t : String)
    (h : mGet st.rows t ≠ none) : mGet (groupByRowStep st p).rows t ≠ none := by
  unfold groupByRowStep
  cases hty : mGet p "type" with
  | none => exact h
  | some tj =>
    cases hdec : decodeGoString tj with
    | none => simp only [hdec]; exact h
    | some ty =>
      by_cases hr : ty = "row"
      · simp only [hdec, if_pos hr]
        exact mGet_mSet_ne_none _ _ _ _ h
      · simp only [hdec, if_neg hr]
        exact h

theorem groupByRowGo_rows_mono (ps : List Panel) (t : String) :
    ∀ st : GState, mGet st.rows t ≠ none →
      mGet (ps.foldl groupByRowStep st).rows t ≠ none := by
  induction ps with
  | nil => intro st h; exact h
  | cons p ps ih =>
    intro st h
    rw [List.foldl_cons]
    exact ih _ (groupByRowStep_rows_mono st p t h)

theorem groupByRow_rows_key (ps : List Panel) (r : Panel) (tj tr : Json) (t : String)
    (hr : r ∈ ps)
    (hty : mGet r "type" = some tj) (hrow : decodeGoString tj = some "row")
    (htr : mGet r "title" = some tr) (hdec : decodeGoString tr = some t) :
    mGet (groupByRow ps).2 t ≠ none := by
  obtain ⟨u, v, rfl⟩ := List.append_of_mem hr
  unfold groupByRow
  rw [List.foldl_append, List.foldl_cons]
  apply groupByRowGo_rows_mono
  rw [groupByRowStep_row_resolved _ r tj tr t hty hrow htr hdec]
  simp [mGet_mSet_self]

theorem tmp1Go_seen_subset (rows2 : PMap Panel) (merged : PMap (List Panel))
    (only2 ord : List String) :
    ∀ acc : List Panel × List String,
      (∀ t ∈ acc.2, t ∈ only2) →
      ∀ t ∈ (ord.foldl (tmp1Step rows2 merged only2) acc).2, t ∈ only2 := by
  induction ord with
  | nil => intro acc h; exact h
  | cons k ks ih =>
    intro acc h
    rw [List.foldl_cons]
    apply ih
    unfold tmp1Step
    cases hc : only2.contains k
    · simp only [Bool.false_eq_true, if_false]
      exact h
    · simp only [if_true]
      intro t ht
      rcases List.mem_cons.1 ht with rfl | ht
      · exact (strContains_iff only2 t).1 hc
      · exact h t ht

theorem tmp1Of_seen_subset (rows2 : PMap Panel) (merged : PMap (List Panel))
    (only2 ord : List String) :
    ∀ t ∈ (tmp1Of rows2 merged only2 ord).2, t ∈ only2 :=
  tmp1Go_seen_subset rows2 merged only2 ord ([], []) (fun t ht => by cases ht)

theorem mem_onlyPs2_rows1_none (rows1 rows2 : PMap Panel) (t : String)
    (h : t ∈ onlyPs2Of rows1 rows2) : mGet rows1 t = none := by
  unfold onlyPs2Of at h
  have := (List.mem_filter.1 h).2
  simpa [Option.isNone_iff_eq_none] using this

theorem repackGo_strip (ps : List Panel) :
    ∀ st : RState, (repackGo st ps).map stripGrid = ps.map stripGrid := by
  induction ps with
  | nil => intro st; rfl
  | cons p ps ih =>
    intro st
    rw [repackGo]
    simp only [List.map_cons]
    rw [ih]
    have h2 : (repackStep st p).2 =
        mSet p "gridPos" (encodeGridPos
          (GridPos.mk (Panel.gridPos p).h (Panel.gridPos p).w
            (if st.rowW + (Panel.gridPos p).w > 24 then (0 : Int) else st.rowW)
            (if st.rowW + (Panel.gridPos p).w > 24 then st.y + st.rowMaxH else st.y))) := by
      unfold repackStep
      by_cases hc : st.rowW + (Panel.gridPos p).w > 24 <;> simp [hc]
    rw [h2, stripGrid_mSet_gridPos]

theorem repack_strip (ps : List Panel) :
    (repack ps).map stripGrid = ps.map stripGrid :=
  repackGo_strip ps (RState.mk 0 0 0)

/-! Lemmas for the panel-coverage claim: where groupByRow puts the content
panels and which group keys exist. -/

theorem resolvedTitle_exists (p : Panel) (t : String) (h : resolvedTitle p = some t) :
    ∃ tr, mGet p "title" = some tr ∧ decodeGoString tr = some t := by
  unfold resolvedTitle at h
  cases htr : mGet p "title" with
  | none =>
    simp only [htr] at h
    exact Option.noConfusion h
  | some tr => simp only [htr] at h; exact ⟨tr, rfl, h⟩

theorem rowWalkTitle_of_resolved (p : Panel) (t : String) (h : resolvedTitle p = some t) :
    rowWalkTitle p = t := by
  obtain ⟨tr, htr, hdec⟩ := resolvedTitle_exists p t h
  simp [rowWalkTitle, htr, hdec]

theorem groupByRowStep_content (st : GState) (p : Panel) (tj : Json) (ty : String)
    (hty : mGet p "type" = some tj) (hdec : decodeGoString tj = some ty)
    (hne : ty ≠ "row") :
    groupByRowStep st p =
      GState.mk (mAppendGroup st.groups st.groupName [p]) st.rows st.groupName := by
  simp [groupByRowStep, hty, hdec, hne]

/-- Every groupByRow iteration either drops the panel, appends it as content
under the current group, or handles it as a row marker under a key that is
the current group name or the marker's resolved title. -/
theorem groupByRowStep_shape (st : GState) (p : Panel) :
    groupByRowStep st p = st ∨
    groupByRowStep st p =
      GState.mk (mAppendGroup st.groups st.groupName [p]) st.rows st.groupName ∨
    ∃ k, (k = st.groupName ∨ (isRowTyped p = true ∧ resolvedTitle p = some k)) ∧
      groupByRowStep st p =
        GState.mk (mAppendGroup st.groups k (retrieveEmbeddedPanels p))
          (mSet st.rows k (clearRow p)) k := by
  cases hty : mGet p "type" with
  | none => exact Or.inl (by simp [groupByRowStep, hty])
  | some tj =>
    cases hdec : decodeGoString tj with
    | none => exact Or.inl (by simp [groupByRowStep, hty, hdec])
    | some ty =>
      by_cases hr : ty = "row"
      · subst hr
        cases htr : mGet p "title" with
        | none =>
          refine Or.inr (Or.inr ⟨st.groupName, Or.inl rfl, ?_⟩)
          simp [groupByRowStep, hty, hdec, htr]
        | some tr =>
          cases hdt : decodeGoString tr with
          | none =>
            refine Or.inr (Or.inr ⟨st.groupName, Or.inl rfl, ?_⟩)
            simp [groupByRowStep, hty, hdec, htr, hdt]
          | some t =>
            refine Or.inr (Or.inr ⟨t,
              Or.inr ⟨by simp [isRowTyped, hty, hdec],
                by simp [resolvedTitle, htr, hdt]⟩, ?_⟩)
            simp [groupByRowStep, hty, hdec, htr, hdt]
      · refine Or.inr (Or.inl ?_)
        simp [groupByRowStep, hty, hdec, hr]

theorem mAppendGroup_keys (m : PMap (List Panel)) (k : String) (xs : List Panel)
    (g : String) (hg : mGet (mAppendGroup m k xs) g ≠ none) :
    g = k ∨ mGet m g ≠ none := by
  by_cases he : g = k
  · exact Or.inl he
  · rw [mAppendGroup, mGet_mSet_ne _ _ he] at hg
    exact Or.inr hg

theorem mAppendGroup_pmem (m : PMap (List Panel)) (k : String) (xs : List Panel)
    (g : String) (x : Panel) (h : ∃ l, mGet m g = some l ∧ x ∈ l) :
    ∃ l, mGet (mAppendGroup m k xs) g = some l ∧ x ∈ l := by
  obtain ⟨l, hl, hx⟩ := h
  by_cases he : g = k
  · subst he
    refine ⟨(mGet m g).getD [] ++ xs, ?_, ?_⟩
    · rw [mAppendGroup, mGet_mSet_self]
    · rw [hl]
      exact List.mem_append_left xs hx
  · exact ⟨l, by rw [mAppendGroup, mGet_mSet_ne _ _ he]; exact hl, hx⟩

theorem groups_pmem_foldl (l : List Panel) (x : Panel) :
    ∀ st : GState, (∃ g ll, mGet st.groups g = some ll ∧ x ∈ ll) →
      ∃ g ll, mGet ((l.foldl groupByRowStep st).groups) g = some ll ∧ x ∈ ll := by
  induction l with
  | nil => intro st h; exact h
  | cons p ps ih =>
    intro st h
    rw [List.foldl_cons]
    refine ih _ ?_
    obtain ⟨g, ll, hl, hx⟩ := h
    rcases groupByRowStep_shape st p with hs | hs | ⟨k, _, hs⟩
    · rw [hs]; exact ⟨g, ll, hl, hx⟩
    · rw [hs]
      obtain ⟨l', hl', hx'⟩ := mAppendGroup_pmem st.groups st.groupName [p] g x ⟨ll, hl, hx⟩
      exact ⟨g, l', hl', hx'⟩
    · rw [hs]
      obtain ⟨l', hl', hx'⟩ :=
        mAppendGroup_pmem st.groups k (retrieveEmbeddedPanels p) g x ⟨ll, hl, hx⟩
      exact ⟨g, l', hl', hx'⟩

theorem groupByRow_content_mem (ps : List Panel) (p : Panel) (tj : Json) (ty : String)
    (hp : p ∈ ps) (hty : mGet p "type" = some tj) (hdec : decodeGoString tj = some ty)
    (hne : ty ≠ "row") :
    ∃ g l, mGet (groupByRow ps).1 g = some l ∧ p ∈ l := by
  obtain ⟨u, v, rfl⟩ := List.append_of_mem hp
  unfold groupByRow
  rw [List.foldl_append, List.foldl_cons]
  refine groups_pmem_foldl v p _ ?_
  rw [groupByRowStep_content _ p tj ty hty hdec hne]
  refine ⟨(u.foldl groupByRowStep (GState.mk [] [] "none")).groupName,
    (mGet (u.foldl groupByRowStep (GState.mk [] [] "none")).groups
      (u.foldl groupByRowStep (GState.mk [] [] "none")).groupName).getD [] ++ [p],
    ?_, by simp⟩
  rw [show (GState.mk (mAppendGroup (u.foldl groupByRowStep (GState.mk [] [] "none")).groups
      (u.foldl groupByRowStep (GState.mk [] [] "none")).groupName [p])
      (u.foldl groupByRowStep (GState.mk [] [] "none")).rows
      (u.foldl groupByRowStep (GState.mk [] [] "none")).groupName).groups =
    mAppendGroup (u.foldl groupByRowStep (GState.mk [] [] "none")).groups
      (u.foldl groupByRowStep (GState.mk [] [] "none")).groupName [p] from rfl]
  rw [mAppendGroup, mGet_mSet_self]

theorem groupByRow_covered_go (l : List Panel) (P : String → Prop) :
    ∀ st : GState, P st.groupName →
      (∀ g, mGet st.groups g ≠ none → P g) →
      (∀ g, mGet st.rows g ≠ none → P g) →
      (∀ p ∈ l, ∀ t, isRowTyped p = true → resolvedTitle p = some t → P t) →
      P (l.foldl groupByRowStep st).groupName ∧
      (∀ g, mGet ((l.foldl groupByRowStep st).groups) g ≠ none → P g) ∧
      (∀ g, mGet ((l.foldl groupByRowStep st).rows) g ≠ none → P g) := by
  induction l with
  | nil => intro st h1 h2 h3 _; exact ⟨h1, h2, h3⟩
  | cons p ps ih =>
    intro st h1 h2 h3 hl
    rw [List.foldl_cons]
    have hstep : P (groupByRowStep st p).groupName ∧
        (∀ g, mGet (groupByRowStep st p).groups g ≠ none → P g) ∧
        (∀ g, mGet (groupByRowStep st p).rows g ≠ none → P g) := by
      rcases groupByRowStep_shape st p with hs | hs | ⟨k, hk, hs⟩
      · rw [hs]; exact ⟨h1, h2, h3⟩
      · rw [hs]
        refine ⟨h1, ?_, h3⟩
        intro g hg
        rcases mAppendGroup_keys st.groups st.groupName [p] g hg with rfl | hg
        · exact h1
        · exact h2 g hg
      · have hPk : P k := by
          rcases hk with rfl | ⟨hrow, hres⟩
          · exact h1
          · exact hl p (by simp) k hrow hres
        rw [hs]
        refine ⟨hPk, ?_, ?_⟩
        · intro g hg
          rcases mAppendGroup_keys st.groups k _ g hg with rfl | hg
          · exact hPk
          · exact h2 g hg
        · intro g hg
          by_cases he : g = k
          · subst he; exact hPk
          · rw [show (GState.mk (mAppendGroup st.groups k (retrieveEmbeddedPanels p))
                (mSet st.rows k (clearRow p)) k).rows =
                mSet st.rows k (clearRow p) from rfl,
              mGet_mSet_ne _ _ he] at hg
            exact h3 g hg
    exact ih _ hstep.1 hstep.2.1 hstep.2.2 (fun p' hp' => hl p' (by simp [hp']))

theorem groupByRow_covered (ps : List Panel) :
    (∀ g, mGet (groupByRow ps).1 g ≠ none →
      g = "none" ∨ ∃ rr ∈ ps, isRowTyped rr = true ∧ resolvedTitle rr = some g) ∧
    (∀ g, mGet (groupByRow ps).2 g ≠ none →
      g = "none" ∨ ∃ rr ∈ ps, isRowTyped rr = true ∧ resolvedTitle rr = some g) := by
  have h := groupByRow_covered_go ps
    (fun g => g = "none" ∨ ∃ rr ∈ ps, isRowTyped rr = true ∧ resolvedTitle rr = some g)
    (GState.mk [] [] "none") (Or.inl rfl)
    (fun g hg => absurd rfl hg)
    (fun g hg => absurd rfl hg)
    (fun p hp t hrow hres => Or.inr ⟨p, hp, hrow, hres⟩)
  exact ⟨h.2.1, h.2.2⟩

/-! Key sets of the maps groupByRow builds are duplicate free, which pins
down the mergedGroups lookups. -/

theorem mKeys_mDel_sublist {α : Type} (m : PMap α) (k : String) :
    (mKeys (mDel m k)).Sublist (mKeys m) := by
  induction m with
  | nil => simp [mDel, mKeys]
  | cons kv rest ih =>
    by_cases h : kv.1 = k
    · rw [mDel, if_pos h]
      exact ih.cons kv.1
    · rw [mDel, if_neg h]
      exact ih.cons₂ kv.1

theorem not_mem_mKeys_mDel {α : Type} (m : PMap α) (k : String) :
    k ∉ mKeys (mDel m k) := by
  rw [mem_mKeys_iff]
  simp [mGet_mDel_self]

theorem mKeys_mSet_nodup {α : Type} (m : PMap α) (k : String) (v : α)
    (h : (mKeys m).Nodup) : (mKeys (mSet m k v)).Nodup := by
  have hmD : (mKeys (mDel m k)).Nodup := (mKeys_mDel_sublist m k).nodup h
  have hkm := not_mem_mKeys_mDel m k
  have he : mKeys (mSet m k v) = mKeys (mDel m k) ++ [k] := by simp [mSet, mKeys]
  rw [he]
  refine List.Nodup.append hmD (List.nodup_singleton k) ?_
  intro a ha hb
  rw [List.mem_singleton] at hb
  subst hb
  exact hkm ha

theorem groupByRow_nodup_go (l : List Panel) :
    ∀ st : GState, (mKeys st.groups).Nodup → (mKeys st.rows).Nodup →
      (mKeys ((l.foldl groupByRowStep st).groups)).Nodup ∧
      (mKeys ((l.foldl groupByRowStep st).rows)).Nodup := by
  induction l with
  | nil => intro st hg hr; exact ⟨hg, hr⟩
  | cons p ps ih =>
    intro st hg hr
    rw [List.foldl_cons]
    rcases groupByRowStep_shape st p with hs | hs | ⟨k, _, hs⟩
    · rw [hs]; exact ih st hg hr
    · rw [hs]
      exact ih _ (mKeys_mSet_nodup _ _ _ hg) hr
    · rw [hs]
      exact ih _ (mKeys_mSet_nodup _ _ _ hg) (mKeys_mSet_nodup _ _ _ hr)

theorem groupByRow_groups_nodup (ps : List Panel) : (mKeys (groupByRow ps).1).Nodup :=
  (groupByRow_nodup_go ps (GState.mk [] [] "none")
    (by simp [mKeys]) (by simp [mKeys])).1

theorem groupByRow_rows_nodup (ps : List Panel) : (mKeys (groupByRow ps).2).Nodup :=
  (groupByRow_nodup_go ps (GState.mk [] [] "none")
    (by simp [mKeys]) (by simp [mKeys])).2

theorem mGet_none_of_not_mem_keys {α : Type} (m : PMap α) (k : String)
    (h : k ∉ mKeys m) : mGet m k = none := by
  by_cases hc : mGet m k = none
  · exact hc
  · exact absurd ((mem_mKeys_iff m k).2 hc) h

theorem buildMerged_fold1_lookup (g2 : PMap (List Panel)) (l : PMap (List Panel)) :
    ∀ (acc : PMap (List Panel)) (k : String), (mKeys l).Nodup →
      mGet (l.foldl (fun acc kv =>
        match mGet g2 kv.1 with
        | some h2 => mSet acc kv.1 (MergePanels kv.2 h2)
        | none => mSet acc kv.1 kv.2) acc) k =
      match mGet l k with
      | some v =>
        some (match mGet g2 k with
          | some h2 => MergePanels v h2
          | none => v)
      | none => mGet acc k := by
  induction l with
  | nil => intro acc k _; simp [mGet]
  | cons kv rest ih =>
    intro acc k hnd
    rw [show mKeys (kv :: rest) = kv.1 :: mKeys rest from rfl] at hnd
    have hk0 : kv.1 ∉ mKeys rest := (List.nodup_cons.1 hnd).1
    have hnd2 : (mKeys rest).Nodup := (List.nodup_cons.1 hnd).2
    rw [List.foldl_cons, ih _ k hnd2]
    by_cases he : kv.1 = k
    · subst he
      rw [mGet_none_of_not_mem_keys rest kv.1 hk0]
      cases hg2 : mGet g2 kv.1 <;> simp [mGet, hg2, mGet_mSet_self]
    · have hck : mGet (kv :: rest) k = mGet rest k := by rw [mGet, if_neg he]
      rw [hck]
      have hkne : k ≠ kv.1 := fun hh => he hh.symm
      cases hr : mGet rest k
      · cases hg2 : mGet g2 kv.1 <;> simp [hg2, mGet_mSet_ne _ _ hkne]
      · simp

theorem buildMerged_fold2_lookup (l : PMap (List Panel)) :
    ∀ (acc : PMap (List Panel)) (k : String), (mKeys l).Nodup →
      mGet (l.foldl (fun acc kv =>
        match mGet acc kv.1 with
        | some _ => acc
        | none => mSet acc kv.1 kv.2) acc) k =
      match mGet acc k with
      | some v => some v
      | none => mGet l k := by
  induction l with
  | nil =>
    intro acc k _
    simp only [List.foldl_nil]
    cases h : mGet acc k <;> simp [mGet, h]
  | cons kv rest ih =>
    intro acc k hnd
    rw [show mKeys (kv :: rest) = kv.1 :: mKeys rest from rfl] at hnd
    have hnd2 : (mKeys rest).Nodup := (List.nodup_cons.1 hnd).2
    rw [List.foldl_cons]
    cases hacc0 : mGet acc kv.1
    · simp only [hacc0]
      rw [ih _ k hnd2]
      by_cases he : kv.1 = k
      · subst he
        rw [mGet_mSet_self, hacc0, mGet, if_pos rfl]
      · have hkne : k ≠ kv.1 := fun hh => he hh.symm
        rw [mGet_mSet_ne _ _ hkne, mGet, if_neg he]
    · simp only [hacc0]
      rw [ih _ k hnd2]
      by_cases he : kv.1 = k
      · subst he
        rw [hacc0, mGet, if_pos rfl]
      · rw [mGet, if_neg he]

theorem mergedGroupsOf_lookup (ps1 ps2 : List Panel) (g : String) :
    mGet (mergedGroupsOf ps1 ps2) g =
      match mGet (groupByRow ps1).1 g with
      | some h1 =>
        some (match mGet (groupByRow ps2).1 g with
          | some h2 => MergePanels h1 h2
          | none => h1)
      | none => mGet (groupByRow ps2).1 g := by
  unfold mergedGroupsOf buildMergedGroups
  rw [buildMerged_fold2_lookup _ _ _ (groupByRow_groups_nodup ps2),
    buildMerged_fold1_lookup _ _ _ _ (groupByRow_groups_nodup ps1)]
  cases h1 : mGet (groupByRow ps1).1 g <;> simp [mGet]

/-! Survivor lemmas for MergePanels: an unmatched base panel survives as is,
and an incoming panel that is the last of its identity class survives with
only gridPos and id rewritten. -/

theorem mergeOne_base_survivor (res : List Panel) (maxY : Int) (x p : Panel)
    (hp : p ∈ res) (hnm : Panel.equals p x = false) :
    p ∈ (mergeOne res maxY x).1 := by
  rw [mergeOne_fst]
  cases hs : (scanMatches res x).2
  · simp only [Bool.false_eq_true, if_false]
    exact List.mem_append_left _ hp
  · simp only [if_true]
    refine List.mem_map.2 ⟨p, hp, ?_⟩
    rw [if_neg (by simp [hnm])]

theorem mergeGo_base_survivor (l : List Panel) (p : Panel) :
    ∀ acc : List Panel × Int, p ∈ acc.1 →
      (∀ q ∈ l, Panel.equals p q = false) → p ∈ (mergeGo acc l).1 := by
  induction l with
  | nil => intro acc h _; exact h
  | cons x xs ih =>
    intro acc h hl
    rw [mergeGo_cons]
    exact ih _ (mergeOne_base_survivor acc.1 acc.2 x p h (hl x (by simp)))
      (fun q hq => hl q (by simp [hq]))

theorem mergePanels_base_survivor (ps1 ps2 : List Panel) (p : Panel)
    (hp : p ∈ ps1) (hnm : ∀ q ∈ ps2, Panel.equals p q = false) :
    p ∈ MergePanels ps1 ps2 :=
  mergeGo_base_survivor ps2 p (ps1, maxYOf ps1) hp hnm

theorem stripLayout_eq_title {a b : Panel} (h : stripLayout a = stripLayout b) :
    mGet a "title" = mGet b "title" ∧ mGet a "type" = mGet b "type" := by
  constructor
  · rw [← mGet_stripLayout_ne a (show "title" ≠ "gridPos" by decide)
      (show "title" ≠ "id" by decide), h,
      mGet_stripLayout_ne b (by decide) (by decide)]
  · rw [← mGet_stripLayout_ne a (show "type" ≠ "gridPos" by decide)
      (show "type" ≠ "id" by decide), h,
      mGet_stripLayout_ne b (by decide) (by decide)]

theorem mergeOne_strip_intro (res : List Panel) (maxY : Int) (q : Panel) :
    ∃ out ∈ (mergeOne res maxY q).1, stripLayout out = stripLayout q := by
  rw [mergeOne_fst]
  cases hs : (scanMatches res q).2
  · simp only [Bool.false_eq_true, if_false]
    exact ⟨mSet q "gridPos" (encodeGridPos (GridPos.mk 2 6 0 (maxY + 1))),
      List.mem_append_right _ (by simp), stripLayout_mSet_gridPos q _⟩
  · simp only [if_true]
    have hany : res.any (fun r => Panel.equals r q) = true := by
      have := scanGo_snd res (q, false)
      rw [scanMatches] at hs
      simpa [this] using hs
    obtain ⟨r, hr, hrq⟩ := List.any_eq_true.1 hany
    refine ⟨(scanMatches res q).1, List.mem_map.2 ⟨r, hr, by rw [if_pos (by simp [hrq])]⟩, ?_⟩
    rw [scanMatches, stripLayout_scanGo]

theorem mergeOne_strip_survivor (res : List Panel) (maxY : Int) (x q out : Panel)
    (hout : out ∈ res) (hstrip : stripLayout out = stripLayout q)
    (hqx : Panel.equals q x = false) :
    ∃ out2 ∈ (mergeOne res maxY x).1, stripLayout out2 = stripLayout q := by
  have hte := stripLayout_eq_title hstrip
  have houtx : Panel.equals out x = false := by
    rw [equals_congr_left x hte.1 hte.2]
    exact hqx
  rw [mergeOne_fst]
  cases hs : (scanMatches res x).2
  · simp only [Bool.false_eq_true, if_false]
    exact ⟨out, List.mem_append_left _ hout, hstrip⟩
  · simp only [if_true]
    exact ⟨out, List.mem_map.2 ⟨out, hout, by rw [if_neg (by simp [houtx])]⟩, hstrip⟩

theorem mergeGo_strip_survivor (l : List Panel) (q : Panel) :
    ∀ acc : List Panel × Int,
      (∃ out ∈ acc.1, stripLayout out = stripLayout q) →
      (∀ x ∈ l, Panel.equals q x = false) →
      ∃ out ∈ (mergeGo acc l).1, stripLayout out = stripLayout q := by
  induction l with
  | nil => intro acc h _; exact h
  | cons x xs ih =>
    intro acc h hl
    obtain ⟨out, hout, hstrip⟩ := h
    rw [mergeGo_cons]
    exact ih _ (mergeOne_strip_survivor acc.1 acc.2 x q out hout hstrip (hl x (by simp)))
      (fun y hy => hl y (by simp [hy]))

theorem mergePanels_incoming_survivor (ps1 a b : List Panel) (q : Panel)
    (hb : ∀ x ∈ b, Panel.equals q x = false) :
    ∃ out ∈ MergePanels ps1 (a ++ q :: b), stripLayout out = stripLayout q := by
  unfold MergePanels
  rw [mergeGo_append, mergeGo_cons]
  refine mergeGo_strip_survivor b q _ ?_ hb
  exact mergeOne_strip_intro _ _ q

/-! Coverage lemmas: every merged group block reaches the assembled output. -/

theorem tmp1Step_grow (rows2 : PMap Panel) (merged : PMap (List Panel))
    (only2 : List String) (acc : List Panel × List String) (k : String) :
    ∃ suf, (tmp1Step rows2 merged only2 acc k).1 = acc.1 ++ suf := by
  unfold tmp1Step
  cases hc : only2.contains k
  · exact ⟨[], by simp [hc]⟩
  · exact ⟨(mGet rows2 k).getD [] :: (mGet merged k).getD [], by simp [hc]⟩

theorem tmp1Go_grow (rows2 : PMap Panel) (merged : PMap (List Panel))
    (only2 ord : List String) :
    ∀ acc : List Panel × List String,
      ∃ suf, (ord.foldl (tmp1Step rows2 merged only2) acc).1 = acc.1 ++ suf := by
  induction ord with
  | nil => intro acc; exact ⟨[], by simp⟩
  | cons k ks ih =>
    intro acc
    rw [List.foldl_cons]
    obtain ⟨s1, hs1⟩ := tmp1Step_grow rows2 merged only2 acc k
    obtain ⟨s2, hs2⟩ := ih (tmp1Step rows2 merged only2 acc k)
    exact ⟨s1 ++ s2, by rw [hs2, hs1, List.append_assoc]⟩

theorem tmp1_content_cover (rows2 : PMap Panel) (merged : PMap (List Panel))
    (only2 ord : List String) (g : String)
    (hmem : g ∈ ord) (honly : only2.contains g = true) :
    ∀ x ∈ (mGet merged g).getD [], x ∈ (tmp1Of rows2 merged only2 ord).1 := by
  obtain ⟨u, v, rfl⟩ := List.append_of_mem hmem
  unfold tmp1Of
  rw [List.foldl_append, List.foldl_cons]
  intro x hx
  obtain ⟨suf, hsuf⟩ := tmp1Go_grow rows2 merged only2 v
    (tmp1Step rows2 merged only2 (u.foldl (tmp1Step rows2 merged only2) ([], [])) g)
  rw [hsuf]
  apply List.mem_append_left
  unfold tmp1Step
  rw [honly]
  simp only [if_true]
  exact List.mem_append_right _ (List.mem_cons_of_mem _ hx)

theorem walkGo_content_cover (rows1 rows2 : PMap Panel) (merged : PMap (List Panel))
    (ps : List Panel) (g : String) :
    ∀ acc : List Panel × List String, g ∉ acc.2 →
      (∃ p ∈ ps, isRowTyped p = true ∧ rowWalkTitle p = g) →
      ∀ x ∈ (mGet merged g).getD [], x ∈ (walkGo rows1 rows2 merged acc ps).1 := by
  induction ps with
  | nil =>
    rintro acc hg ⟨p, hp, _⟩ x hx
    cases hp
  | cons p ps ih =>
    rintro acc hg ⟨p0, hp0, hrow0, ht0⟩ x hx
    rw [walkGo_cons]
    by_cases hcase : isRowTyped p = true ∧ rowWalkTitle p = g
    · obtain ⟨tj, hty, hdec⟩ := isRowTyped_exists p hcase.1
      have hcont : acc.2.contains (rowWalkTitle p) = false := by
        rw [hcase.2]
        cases hc : acc.2.contains g
        · rfl
        · exact absurd ((strContains_iff _ _).1 hc) hg
      obtain ⟨suf, hsuf⟩ :=
        walkGo_grow rows1 rows2 merged ps (walkStep rows1 rows2 merged acc p)
      rw [hsuf]
      apply List.mem_append_left
      rw [walkStep_row rows1 rows2 merged acc p tj hty hdec, hcont]
      simp only [Bool.false_eq_true, if_false]
      rw [hcase.2]
      exact List.mem_append_right _ hx
    · have hwit : ∃ p' ∈ ps, isRowTyped p' = true ∧ rowWalkTitle p' = g := by
        rcases List.mem_cons.1 hp0 with rfl | hmem
        · exact absurd ⟨hrow0, ht0⟩ hcase
        · exact ⟨p0, hmem, hrow0, ht0⟩
      have hg2 : g ∉ (walkStep rows1 rows2 merged acc p).2 := by
        rcases walkStep_seen_cases rows1 rows2 merged acc p with hsc | ⟨hrowp, hsc⟩
        · rw [hsc]; exact hg
        · rw [hsc]
          intro hmem
          rcases List.mem_cons.1 hmem with he | hmem
          · exact hcase ⟨hrowp, he.symm⟩
          · exact hg hmem
      exact ih _ hg2 hwit x hx

theorem repack_mem_strip (ps : List Panel) (x : Panel) (hx : x ∈ ps) :
    ∃ y ∈ repack ps, stripLayout y = stripLayout x := by
  have hmem : stripGrid x ∈ (repack ps).map stripGrid := by
    rw [repack_strip]
    exact List.mem_map.2 ⟨x, hx, rfl⟩
  obtain ⟨y, hy, he⟩ := List.mem_map.1 hmem
  refine ⟨y, hy, ?_⟩
  rw [stripLayout_eq_mDel_stripGrid, stripLayout_eq_mDel_stripGrid, he]

/-- Every merged group block is emitted into the assembled sequence, through
the ungrouped prefix, the new-groups block or the existing-groups walk. -/
theorem assembled_group_cover (ps1 ps2 : List Panel) (top : Bool) (ord : List String)
    (hord : ord.Perm (mergedKeysOf ps1 ps2)) (g : String) (L : List Panel)
    (hL : mGet (mergedGroupsOf ps1 ps2) g = some L) :
    ∀ x ∈ L, x ∈ assembleByGroup ps1 ps2 top ord := by
  intro x hx
  have hasm : assembleByGroup ps1 ps2 top ord =
      if top then
        (mGet (mergedGroupsOf ps1 ps2) "none").getD [] ++
          (tmp1Of (groupByRow ps2).2 (mergedGroupsOf ps1 ps2)
            (onlyPs2Of (groupByRow ps1).2 (groupByRow ps2).2) ord).1 ++
          (walkGo (groupByRow ps1).2 (groupByRow ps2).2 (mergedGroupsOf ps1 ps2)
            ([], (tmp1Of (groupByRow ps2).2 (mergedGroupsOf ps1 ps2)
              (onlyPs2Of (groupByRow ps1).2 (groupByRow ps2).2) ord).2)
            (ps1.map clearIfRow)).1
      else
        (mGet (mergedGroupsOf ps1 ps2) "none").getD [] ++
          (walkGo (groupByRow ps1).2 (groupByRow ps2).2 (mergedGroupsOf ps1 ps2)
            ([], (tmp1Of (groupByRow ps2).2 (mergedGroupsOf ps1 ps2)
              (onlyPs2Of (groupByRow ps1).2 (groupByRow ps2).2) ord).2)
            (ps1.map clearIfRow)).1 ++
          (tmp1Of (groupByRow ps2).2 (mergedGroupsOf ps1 ps2)
            (onlyPs2Of (groupByRow ps1).2 (groupByRow ps2).2) ord).1 := rfl
  by_cases hgn : g = "none"
  · subst hgn
    have hfront : x ∈ (mGet (mergedGroupsOf ps1 ps2) "none").getD [] := by
      rw [hL]
      exact hx
    rw [hasm]
    cases top <;> simp only [if_true, if_false, Bool.false_eq_true] <;>
      exact List.mem_append_left _ (List.mem_append_left _ hfront)
  · by_cases hrows1 : mGet (groupByRow ps1).2 g = none
    · -- the group comes from ps2 only: it is in the new-groups block
      have hg1 : mGet (groupByRow ps1).1 g = none := by
        by_cases hc : mGet (groupByRow ps1).1 g = none
        · exact hc
        · rcases (groupByRow_covered ps1).1 g hc with he | ⟨rr, hrr, hrow, hres⟩
          · exact absurd he hgn
          · obtain ⟨tr, htr, hdt⟩ := resolvedTitle_exists rr g hres
            obtain ⟨tj, hty, hdec⟩ := isRowTyped_exists rr hrow
            exact absurd (groupByRow_rows_key ps1 rr tj tr g hrr hty hdec htr hdt) (by
              intro hne
              exact hne hrows1)
      have hg2L : mGet (groupByRow ps2).1 g = some L := by
        have hlk := mergedGroupsOf_lookup ps1 ps2 g
        rw [hg1, hL] at hlk
        exact hlk.symm
      have hrows2 : mGet (groupByRow ps2).2 g ≠ none := by
        rcases (groupByRow_covered ps2).1 g (by rw [hg2L]; exact Option.some_ne_none L)
          with he | ⟨rr, hrr, hrow, hres⟩
        · exact absurd he hgn
        · obtain ⟨tr, htr, hdt⟩ := resolvedTitle_exists rr g hres
          obtain ⟨tj, hty, hdec⟩ := isRowTyped_exists rr hrow
          exact groupByRow_rows_key ps2 rr tj tr g hrr hty hdec htr hdt
      have honly : (onlyPs2Of (groupByRow ps1).2 (groupByRow ps2).2).contains g = true := by
        rw [strContains_iff]
        unfold onlyPs2Of
        refine List.mem_filter.2 ⟨(mem_mKeys_iff _ _).2 hrows2, ?_⟩
        rw [hrows1]
        rfl
      have hmemord : g ∈ ord := by
        rw [hord.mem_iff]
        unfold mergedKeysOf
        exact (mem_mKeys_iff _ _).2 (by rw [hL]; exact Option.some_ne_none L)
      have ht1 := tmp1_content_cover (groupByRow ps2).2 (mergedGroupsOf ps1 ps2)
        (onlyPs2Of (groupByRow ps1).2 (groupByRow ps2).2) ord g hmemord honly x
        (by rw [hL]; exact hx)
      rw [hasm]
      cases top
      · simp only [Bool.false_eq_true, if_false]
        exact List.mem_append_right _ ht1
      · simp only [if_true]
        exact List.mem_append_left _ (List.mem_append_right _ ht1)
    · -- a ps1 row resolves to this title: the walk emits the group content
      rcases (groupByRow_covered ps1).2 g hrows1 with he | ⟨rr, hrr, hrow, hres⟩
      · exact absurd he hgn
      · have hseen1 : g ∉ (tmp1Of (groupByRow ps2).2 (mergedGroupsOf ps1 ps2)
            (onlyPs2Of (groupByRow ps1).2 (groupByRow ps2).2) ord).2 := by
          intro hmem
          have honly := tmp1Of_seen_subset _ _ _ ord g hmem
          exact hrows1 (mem_onlyPs2_rows1_none _ _ g honly)
        have hwit : ∃ p' ∈ ps1.map clearIfRow,
            isRowTyped p' = true ∧ rowWalkTitle p' = g := by
          refine ⟨clearIfRow rr, List.mem_map.2 ⟨rr, hrr, rfl⟩, ?_, ?_⟩
          · rw [isRowTyped_clearIfRow]; exact hrow
          · rw [rowWalkTitle_clearIfRow]
            exact rowWalkTitle_of_resolved rr g hres
        have ht2 := walkGo_content_cover (groupByRow ps1).2 (groupByRow ps2).2
          (mergedGroupsOf ps1 ps2) (ps1.map clearIfRow) g
          ([], (tmp1Of (groupByRow ps2).2 (mergedGroupsOf ps1 ps2)
            (onlyPs2Of (groupByRow ps1).2 (groupByRow ps2).2) ord).2)
          hseen1 hwit x (by rw [hL]; exact hx)
        rw [hasm]
        cases top
        · simp only [Bool.false_eq_true, if_false]
          exact List.mem_append_left _ (List.mem_append_right _ ht2)
        · simp only [if_true]
          exact List.mem_append_right _ ht2

/-- C3: the block of groups existing only in ps2 is emitted by ranging over
the Go map mergedGroups, whose iteration order is unspecified and varies
between runs; two admissible orders, both permutations of the mergedGroups
key set, give different outputs on the same inputs, so the output is not a
function of the inputs alone and the required determinism fails. -/
theorem c3_order_leak :
    List.Perm ["A", "B"] (mergedKeysOf [] [rowA, rowB]) ∧
    List.Perm ["B", "A"] (mergedKeysOf [] [rowA, rowB]) ∧
    MergePanelsByGroup [] [rowA, rowB] false ["A", "B"] ≠
      MergePanelsByGroup [] [rowA, rowB] false ["B", "A"] := by
  decide

/-- C10: when ps1 holds a row marker titled none and no earlier ps1 row
marker resolves to the title none, the merged content of the group none
appears twice in the output of MergePanelsByGroup (compared after stripping
the gridPos field, which the repacking pass rewrites): once at the very
front, as the always-first ungrouped block, and once immediately after the
emitted none row header inside the existing-groups block. -/
theorem c10_none_content_twice (l1 l2 ps2 : List Panel) (r : Panel) (top : Bool)
    (ord : List String)
    (hwf : ∀ p ∈ (l1 ++ r :: l2) ++ ps2, panelDeepWF p = true)
    (hty : mGet r "type" = some (Json.str "row"))
    (htitle : mGet r "title" = some (Json.str "none"))
    (hl1 : ∀ p ∈ l1, isRowTyped p = false ∨ rowWalkTitle p ≠ "none") :
    ∃ h mid tail,
      mGet (groupByRow (l1 ++ r :: l2)).2 "none" = some h ∧
      (MergePanelsByGroup (l1 ++ r :: l2) ps2 top ord).map stripGrid =
        ((mGet (mergedGroupsOf (l1 ++ r :: l2) ps2) "none").getD [] ++ mid ++
          h :: ((mGet (mergedGroupsOf (l1 ++ r :: l2) ps2) "none").getD [] ++ tail)).map
          stripGrid := by
  have hkey : mGet (groupByRow (l1 ++ r :: l2)).2 "none" ≠ none :=
    groupByRow_rows_key (l1 ++ r :: l2) r (Json.str "row") (Json.str "none") "none"
      (by simp) hty rfl htitle rfl
  obtain ⟨h, hh⟩ := Option.ne_none_iff_exists'.1 hkey
  set G1 := groupByRow (l1 ++ r :: l2) with hG1
  set G2 := groupByRow ps2 with hG2
  set M := buildMergedGroups G1.1 G2.1 with hM
  set O2 := onlyPs2Of G1.2 G2.2 with hO2
  set T1 := tmp1Of G2.2 M O2 ord with hT1
  set A1 := walkGo G1.2 G2.2 M ([], T1.2) (l1.map clearIfRow) with hA1
  have hrowtype : mGet (clearIfRow r) "type" = some (Json.str "row") := by
    rw [mGet_clearIfRow_type]; exact hty
  have hrowtitle : mGet (clearIfRow r) "title" = some (Json.str "none") := by
    rw [mGet_clearIfRow_title]; exact htitle
  have hwt : rowWalkTitle (clearIfRow r) = "none" := by
    unfold rowWalkTitle
    rw [hrowtitle]
    rfl
  have hseen1 : "none" ∉ T1.2 := by
    intro hmem
    have honly := tmp1Of_seen_subset G2.2 M O2 ord "none" hmem
    have hnone := mem_onlyPs2_rows1_none G1.2 G2.2 "none" honly
    rw [hh] at hnone
    exact Option.some_ne_none h hnone
  have hphase1 : "none" ∉ A1.2 := by
    rw [hA1]
    refine walkGo_seen_not_mem G1.2 G2.2 M "none" (l1.map clearIfRow) ([], T1.2)
      (fun p hp => ?_) hseen1
    obtain ⟨p0, hp0, rfl⟩ := List.mem_map.1 hp
    rcases hl1 p0 hp0 with hnr | hne
    · exact Or.inl (by rw [isRowTyped_clearIfRow]; exact hnr)
    · exact Or.inr (by rw [rowWalkTitle_clearIfRow]; exact hne)
  have hstep : walkStep G1.2 G2.2 M A1 (clearIfRow r) =
      (A1.1 ++ [h] ++ (mGet M "none").getD [], "none" :: A1.2) := by
    rw [walkStep_row G1.2 G2.2 M A1 (clearIfRow r) (Json.str "row") hrowtype rfl, hwt]
    have hcont : A1.2.contains "none" = false := by
      cases hc : A1.2.contains "none"
      · rfl
      · exact absurd ((strContains_iff _ _).1 hc) hphase1
    rw [hcont]
    simp only [Bool.false_eq_true, if_false]
    rw [walkHeader_rows1 G1.2 G2.2 (clearIfRow r) h (by rw [hwt]; exact hh)]
  have hwalk : ∃ suf, (walkGo G1.2 G2.2 M ([], T1.2)
      ((l1 ++ r :: l2).map clearIfRow)).1 =
      A1.1 ++ h :: ((mGet M "none").getD [] ++ suf) := by
    rw [List.map_append, List.map_cons, walkGo_append, ← hA1, walkGo_cons, hstep]
    obtain ⟨suf, hsuf⟩ := walkGo_grow G1.2 G2.2 M (l2.map clearIfRow)
      (A1.1 ++ [h] ++ (mGet M "none").getD [], "none" :: A1.2)
    exact ⟨suf, by rw [hsuf]; simp [List.append_assoc]⟩
  obtain ⟨suf, hsuf⟩ := hwalk
  have hMG : mergedGroupsOf (l1 ++ r :: l2) ps2 = M := rfl
  have hmbg : MergePanelsByGroup (l1 ++ r :: l2) ps2 top ord =
      repack (assembleByGroup (l1 ++ r :: l2) ps2 top ord) := rfl
  have hasm : assembleByGroup (l1 ++ r :: l2) ps2 top ord =
      if top then
        (mGet M "none").getD [] ++ T1.1 ++
          (walkGo G1.2 G2.2 M ([], T1.2) ((l1 ++ r :: l2).map clearIfRow)).1
      else
        (mGet M "none").getD [] ++
          (walkGo G1.2 G2.2 M ([], T1.2) ((l1 ++ r :: l2).map clearIfRow)).1 ++ T1.1 := rfl
  refine ⟨h, (if top then T1.1 ++ A1.1 else A1.1), (if top then suf else suf ++ T1.1),
    hh, ?_⟩
  rw [hMG, hmbg, repack_strip, hasm, hsuf]
  cases top
  · simp [List.append_assoc]
  · simp [List.append_assoc]

theorem c10_witness :
    (∀ p ∈ ([pT] ++ rowNone :: ([] : List Panel)) ++ ([] : List Panel),
      panelDeepWF p = true) ∧
    mGet rowNone "type" = some (Json.str "row") ∧
    mGet rowNone "title" = some (Json.str "none") ∧
    (∀ p ∈ [pT], isRowTyped p = false ∨ rowWalkTitle p ≠ "none") ∧
    (∃ h mid tail,
      mGet (groupByRow ([pT] ++ rowNone :: ([] : List Panel))).2 "none" = some h ∧
      (MergePanelsByGroup ([pT] ++ rowNone :: ([] : List Panel)) [] false []).map
          stripGrid =
        ((mGet (mergedGroupsOf ([pT] ++ rowNone :: ([] : List Panel)) []) "none").getD []
          ++ mid ++
          h :: ((mGet (mergedGroupsOf ([pT] ++ rowNone :: ([] : List Panel)) [])
            "none").getD [] ++ tail)).map stripGrid) :=
  ⟨by decide, by decide, by decide, by decide,
   c10_none_content_twice [pT] [] [] rowNone false [] (by decide) (by decide) (by decide)
     (by decide)⟩

/-- C8 counterexample: a panel whose type field is absent is not the loser of
any title and type match (the incoming side is empty), yet it is dropped from
the output of MergePanelsByGroup entirely, refuting the claim that only match
losers disappear. -/
theorem c8_counterexample :
    pNoType ∈ [pNoType] ∧
    mGet pNoType "type" = none ∧
    (∀ q ∈ ([] : List Panel), Panel.equals pNoType q = false) ∧
    MergePanelsByGroup [pNoType] [] false [] = [] := by
  refine ⟨by decide, by decide, ?_, by decide⟩
  intro q hq
  cases hq

/-- C8 amended: across MergePanelsByGroup, every panel of either input whose
type field reads as a string other than row surfaces in the output with all
fields except gridPos and id intact, unless it loses a title and type match
in MergePanels: for a base panel, being matched by some incoming panel of its
group; for an incoming panel, being followed in its group by a later panel of
the same identity class.  Panels with an absent or unreadable type are
dropped by the grouping step, and row markers may be deduplicated or replaced
by the preferred header, so neither is covered. -/
theorem c8_no_panel_destroyed_amended (ps1 ps2 : List Panel) (top : Bool)
    (ord : List String)
    (hord : ord.Perm (mergedKeysOf ps1 ps2))
    (hwf : ∀ p ∈ ps1 ++ ps2, panelDeepWF p = true) :
    (∀ p ∈ ps1, ∀ tj ty, mGet p "type" = some tj → decodeGoString tj = some ty →
      ty ≠ "row" →
      (∀ g h1 h2, mGet (groupByRow ps1).1 g = some h1 → p ∈ h1 →
        mGet (groupByRow ps2).1 g = some h2 → ∀ q ∈ h2, Panel.equals p q = false) →
      ∃ out ∈ MergePanelsByGroup ps1 ps2 top ord, stripLayout out = stripLayout p) ∧
    (∀ q ∈ ps2, ∀ tj ty, mGet q "type" = some tj → decodeGoString tj = some ty →
      ty ≠ "row" →
      (∀ g h2 a b, mGet (groupByRow ps2).1 g = some h2 → h2 = a ++ q :: b →
        ∀ x ∈ b, Panel.equals q x = false) →
      ∃ out ∈ MergePanelsByGroup ps1 ps2 top ord, stripLayout out = stripLayout q) := by
  constructor
  · intro p hp tj ty hty hdec hne hnoloser
    obtain ⟨g, l, hgl, hpl⟩ := groupByRow_content_mem ps1 p tj ty hp hty hdec hne
    have hLmk : ∃ L, mGet (mergedGroupsOf ps1 ps2) g = some L ∧
        ∃ out0 ∈ L, stripLayout out0 = stripLayout p := by
      have hlk := mergedGroupsOf_lookup ps1 ps2 g
      rw [hgl] at hlk
      cases hg2 : mGet (groupByRow ps2).1 g with
      | none =>
        rw [hg2] at hlk
        exact ⟨l, hlk, p, hpl, rfl⟩
      | some h2 =>
        rw [hg2] at hlk
        refine ⟨MergePanels l h2, hlk, p, ?_, rfl⟩
        exact mergePanels_base_survivor l h2 p hpl
          (fun q hq => hnoloser g l h2 hgl hpl hg2 q hq)
    obtain ⟨L, hL, out0, hout0, hstrip0⟩ := hLmk
    have hmem := assembled_group_cover ps1 ps2 top ord hord g L hL out0 hout0
    obtain ⟨y, hy, hystrip⟩ :=
      repack_mem_strip (assembleByGroup ps1 ps2 top ord) out0 hmem
    exact ⟨y, hy, by rw [hystrip, hstrip0]⟩
  · intro q hq tj ty hty hdec hne hlast
    obtain ⟨g, h2g, hgl, hql⟩ := groupByRow_content_mem ps2 q tj ty hq hty hdec hne
    have hLmk : ∃ L, mGet (mergedGroupsOf ps1 ps2) g = some L ∧
        ∃ out0 ∈ L, stripLayout out0 = stripLayout q := by
      have hlk := mergedGroupsOf_lookup ps1 ps2 g
      cases hg1 : mGet (groupByRow ps1).1 g with
      | none =>
        rw [hg1, hgl] at hlk
        exact ⟨h2g, hlk, q, hql, rfl⟩
      | some h1 =>
        rw [hg1, hgl] at hlk
        refine ⟨MergePanels h1 h2g, hlk, ?_⟩
        obtain ⟨a, b, hab⟩ := List.append_of_mem hql
        rw [hab]
        exact mergePanels_incoming_survivor h1 a b q
          (fun x hx => hlast g h2g a b hgl hab x hx)
    obtain ⟨L, hL, out0, hout0, hstrip0⟩ := hLmk
    have hmem := assembled_group_cover ps1 ps2 top ord hord g L hL out0 hout0
    obtain ⟨y, hy, hystrip⟩ :=
      repack_mem_strip (assembleByGroup ps1 ps2 top ord) out0 hmem
    exact ⟨y, hy, by rw [hystrip, hstrip0]⟩

theorem c8_witness :
    List.Perm ["none"] (mergedKeysOf [pId1] [qB]) ∧
    (∀ p ∈ [pId1] ++ [qB], panelDeepWF p = true) ∧
    ((∀ p ∈ [pId1], ∀ tj ty, mGet p "type" = some tj → decodeGoString tj = some ty →
      ty ≠ "row" →
      (∀ g h1 h2, mGet (groupByRow [pId1]).1 g = some h1 → p ∈ h1 →
        mGet (groupByRow [qB]).1 g = some h2 → ∀ q ∈ h2, Panel.equals p q = false) →
      ∃ out ∈ MergePanelsByGroup [pId1] [qB] false ["none"],
        stripLayout out = stripLayout p) ∧
    (∀ q ∈ [qB], ∀ tj ty, mGet q "type" = some tj → decodeGoString tj = some ty →
      ty ≠ "row" →
      (∀ g h2 a b, mGet (groupByRow [qB]).1 g = some h2 → h2 = a ++ q :: b →
        ∀ x ∈ b, Panel.equals q x = false) →
      ∃ out ∈ MergePanelsByGroup [pId1] [qB] false ["none"],
        stripLayout out = stripLayout q)) :=
  ⟨by decide, by decide,
   c8_no_panel_destroyed_amended [pId1] [qB] false ["none"] (by decide) (by decide)⟩

theorem c6_witness :
    (∀ p ∈ [w20, w10], Panel.gpWF p = true) ∧
    (∀ p ∈ [w20, w10], 0 ≤ (Panel.gridPos p).w ∧ (Panel.gridPos p).w ≤ 24) ∧
    ((∀ s ∈ repackStates (RState.mk 0 0 0) [w20, w10], 0 ≤ s.rowW ∧ s.rowW ≤ 24) ∧
     (∀ (st : RState) (p : Panel),
      (st.rowW + (Panel.gridPos p).w > 24 →
        repackStep st p =
          (RState.mk (st.y + st.rowMaxH) (0 + (Panel.gridPos p).w)
            (if (Panel.gridPos p).h > 0 then (Panel.gridPos p).h else 0),
           mSet p "gridPos" (encodeGridPos
             (GridPos.mk (Panel.gridPos p).h (Panel.gridPos p).w 0
               (st.y + st.rowMaxH))))) ∧
      (¬ st.rowW + (Panel.gridPos p).w > 24 →
        repackStep st p =
          (RState.mk st.y (st.rowW + (Panel.gridPos p).w)
            (if (Panel.gridPos p).h > st.rowMaxH then (Panel.gridPos p).h else st.rowMaxH),
           mSet p "gridPos" (encodeGridPos
             (GridPos.mk (Panel.gridPos p).h (Panel.gridPos p).w st.rowW st.y)))))) :=
  ⟨by decide, by decide, c6_repack_row_invariant [w20, w10] (by decide) (by decide)⟩

end DashboardFusion
